import Mathlib

/-!
# Wine provenance chaincode (`chaincode/chain/chain.go`)

A shallow embedding of the smart contract: the `Device` and `Wine` records,
their JSON encoding (`encoding/json`), the ledger collaborator (world state
and per-key history) and the four handlers reached through `Invoke`.

Modelling conventions.
* In the handlers a Go `string` is `String` and a `[]byte` payload is the list
  of characters of its text (`Bytes`), so the handlers are given on strings and
  payloads that are valid UTF-8.
* The codec of `Device` is also given on Go strings as they are, sequences of
  bytes that need not be valid UTF-8 (`GoString`, `RawDevice`).
* `GetState` returns `none` where the Go call returns `nil`.
* The errors returned by `GetState`, `PutState`, `json.Marshal` and
  `json.Unmarshal` are discarded by the source and are not represented.
-/

namespace Chain

/-! ## Records -/

/-- Payload of a ledger value or of a response. -/
abbrev Bytes := List Char

/-- Go struct `Wine`: seven string fields. -/
structure Wine where
  Owner : String
  Model : String
  ProduceDate : String
  ProducePlace : String
  OutDate : String
  OutPlace : String
  DeviceUid : String
deriving DecidableEq, Repr

/-- Go struct `Device`. -/
structure Device where
  Uid : String
  Model : String
  Brand : String
  Status : String
deriving DecidableEq, Repr

/-- Go struct `WineHistory`. -/
structure WineHistory where
  Timestamp : String
  Wine : Wine
deriving DecidableEq, Repr

/-- Go struct `WholeHistory`. -/
structure WholeHistory where
  Device : Device
  WineHistories : List WineHistory
deriving DecidableEq, Repr

/-- Zero value `Wine{}`. -/
def Wine.zero : Wine := ⟨"", "", "", "", "", "", ""⟩

/-- Zero value `Device{}`. -/
def Device.zero : Device := ⟨"", "", "", ""⟩

/-! ## `json.Marshal` -/

/-- Lower-case hexadecimal digit of `n % 16`. -/
def hexDigit (n : Nat) : Char :=
  "0123456789abcdef".data.getD (n % 16) '0'

/-- Escape of one character inside a JSON string literal, as written by
`json.Marshal` with its default HTML escaping: quote and backslash get a
backslash, newline, carriage return and tab their short form, the remaining
control characters and `<`, `>`, `&` the form `\u00XX`, the separators
U+2028 and U+2029 the form `\u2028`, `\u2029`; every other character is
copied. (Backspace and form feed are among the `\u00XX` forms, as in the Go
releases that Fabric 1.x builds with.) -/
def escapeChar (c : Char) : List Char :=
  if c = '"' then ['\\', '"']
  else if c = '\\' then ['\\', '\\']
  else if c = '\n' then ['\\', 'n']
  else if c = '\r' then ['\\', 'r']
  else if c = '\t' then ['\\', 't']
  else if c.toNat < 32 ∨ c = '<' ∨ c = '>' ∨ c = '&' then
    ['\\', 'u', '0', '0', hexDigit (c.toNat / 16), hexDigit c.toNat]
  else if c.toNat = 0x2028 then "\\u2028".data
  else if c.toNat = 0x2029 then "\\u2029".data
  else [c]

/-- JSON string literal for a Go string that is valid UTF-8, given as its text;
`jsonStringBytes` below gives the literal for any Go string. -/
def jsonString (s : String) : List Char :=
  '"' :: (s.data.flatMap escapeChar ++ ['"'])

/-- Encoding `json.Marshal(device)`: the four tagged fields in declaration order.
The fields are text; `jsonMarshalRawDevice` below is the encoding of a device
whose fields are arbitrary bytes, and agrees with this one on valid UTF-8. -/
def jsonMarshalDevice (d : Device) : Bytes :=
  "\x7b\"uid\":".data ++ jsonString d.Uid
    ++ ",\"model\":".data ++ jsonString d.Model
    ++ ",\"brand\":".data ++ jsonString d.Brand
    ++ ",\"status\":".data ++ jsonString d.Status ++ "\x7d".data

/-- Encoding `json.Marshal(wine)`. `ProduceDate` and `ProducePlace` carry the
same tag `produce_date` at the same depth, so `encoding/json` drops both
fields: the object has five members. -/
def jsonMarshalWine (w : Wine) : Bytes :=
  "\x7b\"owner\":".data ++ jsonString w.Owner
    ++ ",\"model\":".data ++ jsonString w.Model
    ++ ",\"out_date\":".data ++ jsonString w.OutDate
    ++ ",\"out_place\":".data ++ jsonString w.OutPlace
    ++ ",\"device_uid\":".data ++ jsonString w.DeviceUid ++ "\x7d".data

/-- Encoding `json.Marshal(wineHistory)`. -/
def jsonMarshalWineHistory (h : WineHistory) : Bytes :=
  "\x7b\"timestamp\":".data ++ jsonString h.Timestamp
    ++ ",\"wine\":".data ++ jsonMarshalWine h.Wine ++ "\x7d".data

/-- Comma-separated elements of a JSON array. -/
def jsonJoin : List Bytes → Bytes
  | [] => []
  | [x] => x
  | x :: y :: rest => x ++ ',' :: jsonJoin (y :: rest)

/-- Encoding `json.Marshal(wholeHistory)`; the slice is never `nil` in the
source, so an empty history is written `[]`. -/
def jsonMarshalWholeHistory (h : WholeHistory) : Bytes :=
  "\x7b\"device\":".data ++ jsonMarshalDevice h.Device
    ++ ",\"wine_histories\":[".data
    ++ jsonJoin (h.WineHistories.map jsonMarshalWineHistory) ++ "]\x7d".data

/-! ## `json.Unmarshal` -/

/-- JSON syntax tree, as far as decoding into a struct of strings needs it. -/
inductive JValue where
  | null : JValue
  | bool : Bool → JValue
  | number : List Char → JValue
  | string : List Char → JValue
  | array : List JValue → JValue
  | object : List (List Char × JValue) → JValue

/-- JSON insignificant whitespace. -/
def isSpace (c : Char) : Bool :=
  c = ' ' || c = '\t' || c = '\r' || c = '\n'

/-- Drop leading whitespace. -/
def skipSpace : List Char → List Char
  | [] => []
  | c :: cs => if isSpace c then skipSpace cs else c :: cs

/-- Value of a hexadecimal digit. -/
def hexVal (c : Char) : Option Nat :=
  if '0' ≤ c ∧ c ≤ '9' then some (c.toNat - 48)
  else if 'a' ≤ c ∧ c ≤ 'f' then some (c.toNat - 87)
  else if 'A' ≤ c ∧ c ≤ 'F' then some (c.toNat - 55)
  else none

/-- Four hexadecimal digits as a UTF-16 code unit (`getu4`). -/
def getu4 (a b c d : Char) : Option Nat :=
  match hexVal a, hexVal b, hexVal c, hexVal d with
  | some x, some y, some z, some w => some (((x * 16 + y) * 16 + z) * 16 + w)
  | _, _, _, _ => none

/-- Second half of a surrogate pair, when the input continues with one. -/
def lowSurrogate : List Char → Option (Nat × List Char)
  | '\\' :: 'u' :: a :: b :: c :: d :: rest =>
    match getu4 a b c d with
    | some u => if 0xDC00 ≤ u ∧ u < 0xE000 then some (u, rest) else none
    | none => none
  | _ => none

/-- Character written by `\uXXXX` at the head of the input (the four digits
and what follows them): a high surrogate followed by an escaped low surrogate
is their pair, any other surrogate is U+FFFD. -/
def scanUnicode : List Char → Option (Option Char × List Char)
  | a :: b :: c :: d :: rest =>
    match getu4 a b c d with
    | none => none
    | some u =>
      if 0xD800 ≤ u ∧ u < 0xE000 then
        match (if u < 0xDC00 then lowSurrogate rest else none) with
        | some (lo, rest2) =>
          some (some (Char.ofNat (0x10000 + (u - 0xD800) * 1024 + (lo - 0xDC00))), rest2)
        | none => some (some (Char.ofNat 0xFFFD), rest)
      else some (some (Char.ofNat u), rest)
  | _ => none

/-- Character written by the escape whose backslash has been consumed. -/
def scanEscape : List Char → Option (Option Char × List Char)
  | [] => none
  | e :: rest =>
    if e = 'u' then scanUnicode rest
    else if e = '"' then some (some '"', rest)
    else if e = '\\' then some (some '\\', rest)
    else if e = '/' then some (some '/', rest)
    else if e = 'b' then some (some (Char.ofNat 8), rest)
    else if e = 'f' then some (some (Char.ofNat 12), rest)
    else if e = 'n' then some (some '\n', rest)
    else if e = 'r' then some (some '\r', rest)
    else if e = 't' then some (some '\t', rest)
    else none

/-- One step inside a string literal: `some (none, rest)` at the closing quote,
`some (some c, rest)` for a character `c`, `none` for a syntax error (raw
control character, malformed escape, end of input). -/
def scanChar : List Char → Option (Option Char × List Char)
  | [] => none
  | c :: cs =>
    if c = '"' then some (none, cs)
    else if c = '\\' then scanEscape cs
    else if c.toNat < 32 then none
    else some (some c, cs)

/-- Body of a string literal after its opening quote: the decoded text and the
input after the closing quote. -/
def scanString : Nat → List Char → Option (List Char × List Char)
  | 0, _ => none
  | fuel + 1, cs =>
    match scanChar cs with
    | none => none
    | some (none, rest) => some ([], rest)
    | some (some c, rest) => (scanString fuel rest).map fun r => (c :: r.1, r.2)

/-- Longest run of decimal digits and the input after it. -/
def spanDigits : List Char → List Char × List Char
  | [] => ([], [])
  | c :: cs =>
    if c.isDigit then ((spanDigits cs).1.cons c, (spanDigits cs).2) else ([], c :: cs)

/-- Optional fraction of a number: a dot followed by at least one digit. -/
def scanFraction : List Char → Option (List Char × List Char)
  | '.' :: cs =>
    match spanDigits cs with
    | ([], _) => none
    | (ds, rest) => some ('.' :: ds, rest)
  | cs => some ([], cs)

/-- Optional exponent of a number. -/
def scanExponent : List Char → Option (List Char × List Char)
  | [] => some ([], [])
  | e :: cs =>
    if e = 'e' ∨ e = 'E' then
      match cs with
      | s :: cs2 =>
        if s = '+' ∨ s = '-' then
          match spanDigits cs2 with
          | ([], _) => none
          | (ds, rest) => some (e :: s :: ds, rest)
        else
          match spanDigits (s :: cs2) with
          | ([], _) => none
          | (ds, rest) => some (e :: ds, rest)
      | [] => none
    else some ([], e :: cs)

/-- Integer part, fraction and exponent of a number whose sign is consumed. -/
def scanUnsigned : List Char → Option (List Char × List Char)
  | [] => none
  | c :: cs =>
    if c = '0' then
      (scanFraction cs).bind fun f => (scanExponent f.2).map fun x => (c :: f.1 ++ x.1, x.2)
    else if c.isDigit then
      (scanFraction (spanDigits cs).2).bind fun f =>
        (scanExponent f.2).map fun x => (c :: (spanDigits cs).1 ++ f.1 ++ x.1, x.2)
    else none

/-- Number literal: its text and the input after it. -/
def scanNumber : List Char → Option (List Char × List Char)
  | '-' :: cs => (scanUnsigned cs).map fun r => ('-' :: r.1, r.2)
  | cs => scanUnsigned cs

/-- A value that is not an object or an array: string, `true`, `false`, `null`
or number, at the head of the input. -/
def scanScalar : List Char → Option (JValue × List Char)
  | '"' :: cs => (scanString (cs.length + 1) cs).map fun r => (JValue.string r.1, r.2)
  | 't' :: 'r' :: 'u' :: 'e' :: rest => some (JValue.bool true, rest)
  | 'f' :: 'a' :: 'l' :: 's' :: 'e' :: rest => some (JValue.bool false, rest)
  | 'n' :: 'u' :: 'l' :: 'l' :: rest => some (JValue.null, rest)
  | cs => (scanNumber cs).map fun r => (JValue.number r.1, r.2)

/-- Key of an object member with its colon: the key and the input at the value. -/
def scanKey (cs : List Char) : Option (List Char × List Char) :=
  if cs.head? = some '"' then
    (scanString (cs.tail.length + 1) cs.tail).bind fun k =>
      if (skipSpace k.2).head? = some ':' then some (k.1, skipSpace (skipSpace k.2).tail)
      else none
  else none

mutual
/-- One JSON value at the head of the input (no leading whitespace). -/
def parseValue : Nat → List Char → Option (JValue × List Char)
  | 0, _ => none
  | fuel + 1, cs =>
    if cs.head? = some '\x7b' then
      if (skipSpace cs.tail).head? = some '\x7d' then
        some (JValue.object [], (skipSpace cs.tail).tail)
      else (parseMembers fuel (skipSpace cs.tail)).map fun r => (JValue.object r.1, r.2)
    else if cs.head? = some '[' then
      if (skipSpace cs.tail).head? = some ']' then
        some (JValue.array [], (skipSpace cs.tail).tail)
      else (parseElements fuel (skipSpace cs.tail)).map fun r => (JValue.array r.1, r.2)
    else scanScalar cs
/-- Members of an object up to and including the closing brace. -/
def parseMembers : Nat → List Char → Option (List (List Char × JValue) × List Char)
  | 0, _ => none
  | fuel + 1, cs =>
    (scanKey cs).bind fun k =>
      (parseValue fuel k.2).bind fun v =>
        if (skipSpace v.2).head? = some '\x7d' then
          some ([(k.1, v.1)], (skipSpace v.2).tail)
        else if (skipSpace v.2).head? = some ',' then
          (parseMembers fuel (skipSpace (skipSpace v.2).tail)).map fun r =>
            ((k.1, v.1) :: r.1, r.2)
        else none
/-- Elements of an array up to and including the closing bracket. -/
def parseElements : Nat → List Char → Option (List JValue × List Char)
  | 0, _ => none
  | fuel + 1, cs =>
    (parseValue fuel cs).bind fun v =>
      if (skipSpace v.2).head? = some ']' then some ([v.1], (skipSpace v.2).tail)
      else if (skipSpace v.2).head? = some ',' then
        (parseElements fuel (skipSpace (skipSpace v.2).tail)).map fun r => (v.1 :: r.1, r.2)
      else none
end

/-- Whole input as one JSON value surrounded by optional whitespace
(`checkValid` together with the scan of the decoder). Fuel bounds the depth of
the recursion and input that exhausts it is rejected like a syntax error; the
encodings written by this contract need six units, and get their length plus
one. -/
def parseJSON (data : Bytes) : Option JValue :=
  match parseValue (data.length + 1) (skipSpace data) with
  | some (v, rest) => if skipSpace rest = [] then some v else none
  | none => none

/-- Case folding used to match an object key with a field name: ASCII letters
ignore case, and the Kelvin sign and the long s fold to `k` and `s`. -/
def foldRune (c : Char) : Char :=
  if c.toNat = 0x212A then 'k'
  else if c.toNat = 0x17F then 's'
  else if 'A' ≤ c ∧ c ≤ 'Z' then Char.ofNat (c.toNat + 32)
  else c

/-- Store one object member into a `Device`: a string value whose key folds to
a field name sets that field; any other member leaves the value as it is. -/
def Device.setMember (d : Device) (m : List Char × JValue) : Device :=
  match m.2 with
  | JValue.string s =>
    if m.1.map foldRune = "uid".data then { d with Uid := String.mk s }
    else if m.1.map foldRune = "model".data then { d with Model := String.mk s }
    else if m.1.map foldRune = "brand".data then { d with Brand := String.mk s }
    else if m.1.map foldRune = "status".data then { d with Status := String.mk s }
    else d
  | _ => d

/-- Effect of `json.Unmarshal(data, &device)` on `device`: input that is not
valid JSON, or whose value is not an object, leaves it unchanged; the members
of an object are stored in order. -/
def jsonUnmarshalDevice (data : Bytes) (d : Device) : Device :=
  match parseJSON data with
  | some (JValue.object members) => members.foldl Device.setMember d
  | _ => d

/-- Effect of `json.Unmarshal(data, v)` on the caller's variable when `v` is
passed by value and not through a pointer: the call returns an
`InvalidUnmarshalError` (or a syntax error) and the variable keeps its value. -/
def jsonUnmarshalByValue {α : Type} (_data : Bytes) (v : α) : α := v

/-! ## Go strings as byte sequences

A Go `string` is a sequence of bytes that need not be valid UTF-8, and
`encoding/json` works on the bytes: `json.Marshal` writes the escape of U+FFFD
for each byte that starts no valid encoding, `json.Unmarshal` stores the UTF-8
bytes of the text it read. The codec of `Device` is given here on such
strings. -/

/-- One byte of a Go string. -/
abbrev Byte := Fin 256

/-- Go string: a sequence of bytes, valid UTF-8 or not. -/
abbrev GoString := List Byte

/-- Byte with value `n % 256`. -/
def byte (n : Nat) : Byte := ⟨n % 256, Nat.mod_lt n (by decide)⟩

/-- UTF-8 encoding of one character (`utf8.EncodeRune`). -/
def encodeRune (c : Char) : List Byte :=
  if c.toNat < 0x80 then [byte c.toNat]
  else if c.toNat < 0x800 then [byte (0xC0 + c.toNat / 64), byte (0x80 + c.toNat % 64)]
  else if c.toNat < 0x10000 then
    [byte (0xE0 + c.toNat / 4096), byte (0x80 + c.toNat / 64 % 64), byte (0x80 + c.toNat % 64)]
  else
    [byte (0xF0 + c.toNat / 262144), byte (0x80 + c.toNat / 4096 % 64),
      byte (0x80 + c.toNat / 64 % 64), byte (0x80 + c.toNat % 64)]

/-- The Go string that holds the text `s`. -/
def utf8Encode (s : List Char) : GoString := s.flatMap encodeRune

/-- Continuation byte, `0x80` to `0xBF`. -/
def isCont (b : Byte) : Bool := 0x80 ≤ b.val && b.val ≤ 0xBF

/-- Least second byte accepted after the first byte `b0` (`acceptRanges`). -/
def acceptLo (b0 : Byte) : Nat :=
  if b0.val = 0xE0 then 0xA0 else if b0.val = 0xF0 then 0x90 else 0x80

/-- Greatest second byte accepted after the first byte `b0` (`acceptRanges`). -/
def acceptHi (b0 : Byte) : Nat :=
  if b0.val = 0xED then 0x9F else if b0.val = 0xF4 then 0x8F else 0xBF

/-- Second byte in the range accepted after `b0`. -/
def isSecond (b0 b1 : Byte) : Bool := acceptLo b0 ≤ b1.val && b1.val ≤ acceptHi b0

/-- Rune of two bytes whose first byte is `b0`, from the bytes after it. -/
def decodeRune2 (b0 : Byte) : List Byte → Option Char × Nat
  | b1 :: _ =>
    if isSecond b0 b1 then (some (Char.ofNat (b0.val % 32 * 64 + b1.val % 64)), 2)
    else (none, 1)
  | _ => (none, 1)

/-- Rune of three bytes whose first byte is `b0`, from the bytes after it. -/
def decodeRune3 (b0 : Byte) : List Byte → Option Char × Nat
  | b1 :: b2 :: _ =>
    if isSecond b0 b1 && isCont b2 then
      (some (Char.ofNat (b0.val % 16 * 4096 + b1.val % 64 * 64 + b2.val % 64)), 3)
    else (none, 1)
  | _ => (none, 1)

/-- Rune of four bytes whose first byte is `b0`, from the bytes after it. -/
def decodeRune4 (b0 : Byte) : List Byte → Option Char × Nat
  | b1 :: b2 :: b3 :: _ =>
    if isSecond b0 b1 && isCont b2 && isCont b3 then
      (some (Char.ofNat
        (b0.val % 8 * 262144 + b1.val % 64 * 4096 + b2.val % 64 * 64 + b3.val % 64)), 4)
    else (none, 1)
  | _ => (none, 1)

/-- First rune of a Go string and its width in bytes
(`utf8.DecodeRuneInString`): `(none, 1)` stands for `(RuneError, 1)`, the answer
for a byte that starts no valid encoding. -/
def decodeRune : List Byte → Option Char × Nat
  | [] => (none, 0)
  | b0 :: rest =>
    if b0.val < 0x80 then (some (Char.ofNat b0.val), 1)
    else if b0.val < 0xC2 then (none, 1)
    else if b0.val < 0xE0 then decodeRune2 b0 rest
    else if b0.val < 0xF0 then decodeRune3 b0 rest
    else if b0.val < 0xF5 then decodeRune4 b0 rest
    else (none, 1)

/-- Runes of a Go string in order, as `json.Marshal` walks them, `none` for each
byte that starts no valid encoding. The first argument is the number of bytes
still to skip, those of the rune decoded last. -/
def decodeRunesFrom : Nat → List Byte → List (Option Char)
  | _, [] => []
  | skip + 1, _ :: rest => decodeRunesFrom skip rest
  | 0, b :: rest =>
    (decodeRune (b :: rest)).1 :: decodeRunesFrom ((decodeRune (b :: rest)).2 - 1) rest

/-- Runes of a Go string. -/
def decodeRunes (s : GoString) : List (Option Char) := decodeRunesFrom 0 s

/-- Test `utf8.ValidString(s)`: every rune decodes. -/
def validUTF8 (s : GoString) : Bool := (decodeRunes s).all Option.isSome

/-- Text of a Go string: its runes, with U+FFFD for each byte that starts no
valid encoding. -/
def decodeText (s : GoString) : List Char :=
  (decodeRunes s).map fun r => r.getD (Char.ofNat 0xFFFD)

/-- Go struct `Device` with each field held as the bytes of its Go string. -/
structure RawDevice where
  Uid : GoString
  Model : GoString
  Brand : GoString
  Status : GoString
deriving DecidableEq, Repr

/-- Zero value `Device{}`, on bytes. -/
def RawDevice.zero : RawDevice := ⟨[], [], [], []⟩

/-- The device as text, when its fields are valid UTF-8. -/
def RawDevice.text (d : RawDevice) : Device :=
  ⟨String.mk (decodeText d.Uid), String.mk (decodeText d.Model),
    String.mk (decodeText d.Brand), String.mk (decodeText d.Status)⟩

/-- What `json.Marshal` writes for one rune of a string: the escape of the
character, or the six characters of the escape of U+FFFD for a byte that
starts no valid encoding. -/
def escapeRune : Option Char → List Char
  | some c => escapeChar c
  | none => "\\ufffd".data

/-- JSON string literal that `json.Marshal` writes for a Go string. -/
def jsonStringBytes (s : GoString) : List Char :=
  '"' :: ((decodeRunes s).flatMap escapeRune ++ ['"'])

/-- Encoding `json.Marshal(device)` of a device given on bytes. -/
def jsonMarshalRawDevice (d : RawDevice) : Bytes :=
  "\x7b\"uid\":".data ++ jsonStringBytes d.Uid
    ++ ",\"model\":".data ++ jsonStringBytes d.Model
    ++ ",\"brand\":".data ++ jsonStringBytes d.Brand
    ++ ",\"status\":".data ++ jsonStringBytes d.Status ++ "\x7d".data

/-- Store one object member into a device given on bytes: as `Device.setMember`,
the field receiving the UTF-8 bytes of the text. -/
def RawDevice.setMember (d : RawDevice) (m : List Char × JValue) : RawDevice :=
  match m.2 with
  | JValue.string s =>
    if m.1.map foldRune = "uid".data then { d with Uid := utf8Encode s }
    else if m.1.map foldRune = "model".data then { d with Model := utf8Encode s }
    else if m.1.map foldRune = "brand".data then { d with Brand := utf8Encode s }
    else if m.1.map foldRune = "status".data then { d with Status := utf8Encode s }
    else d
  | _ => d

/-- Effect of `json.Unmarshal(data, &device)` on a device given on bytes. -/
def jsonUnmarshalRawDevice (data : Bytes) (d : RawDevice) : RawDevice :=
  match parseJSON data with
  | some (JValue.object members) => members.foldl RawDevice.setMember d
  | _ => d

/-- Device whose identifier is the three bytes `x`, `0xFF`, `y`: not valid
UTF-8. -/
def rawDeviceInvalid : RawDevice :=
  ⟨[byte 0x78, byte 0xFF, byte 0x79], utf8Encode "X1".data, utf8Encode "Acme".data,
    utf8Encode "enrolled".data⟩

/-- Device whose fields are valid UTF-8 with characters of two, three and four
bytes and characters that `json.Marshal` escapes. -/
def rawDeviceValid : RawDevice :=
  ⟨utf8Encode "D1".data, utf8Encode "Châ€😀".data, utf8Encode "A\"<b>\\\n".data,
    utf8Encode "enrolled".data⟩

/-! ## Ledger collaborator and response envelope -/

/-- Protobuf timestamp of a transaction. -/
structure Timestamp where
  Seconds : Int
  Nanos : Int
deriving DecidableEq, Repr

/-- One version of a key in the history index (`queryresult.KeyModification`). -/
structure KeyModification where
  Value : Bytes
  Timestamp : Timestamp
deriving DecidableEq, Repr

/-- World state (current value per key) and history index (all versions written
to a key, oldest first). -/
structure Ledger where
  state : String → Option Bytes
  history : String → List KeyModification

/-- Ledger with no key and no history. -/
def Ledger.empty : Ledger := ⟨fun _ => none, fun _ => []⟩

/-- What a handler sees of the peer through `shim.ChaincodeStubInterface`: the
ledger, the timestamp of the running transaction, and the peer's rendering
`time.Unix(seconds, nanos).String()`, which depends on its local time zone. -/
structure Stub where
  ledger : Ledger
  TxTimestamp : Timestamp
  timeString : Int → Int → String

/-- Point lookup `stub.GetState(key)`. -/
def Stub.GetState (stub : Stub) (key : String) : Option Bytes :=
  stub.ledger.state key

/-- Upsert `stub.PutState(key, value)`: the value becomes current and one
version, stamped with the transaction time, is appended to the key's history. -/
def Stub.PutState (stub : Stub) (key : String) (value : Bytes) : Stub :=
  { stub with
    ledger :=
      { state := fun k => if k = key then some value else stub.ledger.state k
        history := fun k =>
          if k = key then stub.ledger.history k ++ [⟨value, stub.TxTimestamp⟩]
          else stub.ledger.history k } }

/-- Iterator `stub.GetHistoryForKey(key)`, drained in order. -/
def Stub.GetHistoryForKey (stub : Stub) (key : String) : List KeyModification :=
  stub.ledger.history key

/-- Response envelope `sc.Response`. -/
structure Response where
  Status : Int
  Message : String
  Payload : Option Bytes
deriving DecidableEq, Repr

/-- Constructor `shim.Success(payload)`: status 200. -/
def shim.Success (payload : Option Bytes) : Response := ⟨200, "", payload⟩

/-- Constructor `shim.Error(msg)`: status 500. -/
def shim.Error (msg : String) : Response := ⟨500, msg, none⟩

/-! ## Handlers

Each handler returns its response and the ledger it leaves behind. -/

/-- Handler `queryWine` (operation `queryAllCars`). -/
def queryWine (stub : Stub) (args : List String) : Response × Ledger :=
  match args with
  | [a0] =>
    match stub.GetState ("device" ++ a0) with
    | none => (shim.Error "Device not enrolled", stub.ledger)
    | some deviceAsBytes =>
      let device := jsonUnmarshalByValue deviceAsBytes Device.zero
      if device.Status ≠ "bind" then (shim.Error "Wine not enrolled", stub.ledger)
      else
        let resultsIterator := stub.GetHistoryForKey ("wine" ++ a0)
        let wineHistories : List WineHistory :=
          resultsIterator.foldl
            (fun acc response =>
              let wine := jsonUnmarshalByValue response.Value Wine.zero
              acc ++ [{ Timestamp :=
                          stub.timeString response.Timestamp.Seconds response.Timestamp.Nanos
                        Wine := wine }])
            []
        let wholeHistory : WholeHistory := { Device := device, WineHistories := wineHistories }
        (shim.Success (some (jsonMarshalWholeHistory wholeHistory)), stub.ledger)
  | _ => (shim.Error "Incorrect number of arguments. Expecting 1", stub.ledger)

/-- Handler `transferWine`. -/
def transferWine (stub : Stub) (args : List String) : Response × Ledger :=
  match args with
  | [a0, a1] =>
    match stub.GetState ("device" ++ a0) with
    | none => (shim.Error "Device not enrolled", stub.ledger)
    | some deviceAsBytes =>
      let device := jsonUnmarshalByValue deviceAsBytes Device.zero
      if device.Status ≠ "bind" then (shim.Error "Wine not enrolled", stub.ledger)
      else
        let wineAsBytes := stub.GetState ("wine" ++ a0)
        let wine := jsonUnmarshalByValue (wineAsBytes.getD []) Wine.zero
        let wine := { wine with Owner := a1 }
        let wineAsBytes := jsonMarshalWine wine
        (shim.Success none, (stub.PutState ("wine" ++ a0) wineAsBytes).ledger)
  | _ => (shim.Error "Incorrect number of arguments. Expecting 2", stub.ledger)

/-- Handler `enrollDevice`. -/
def enrollDevice (stub : Stub) (args : List String) : Response × Ledger :=
  match args with
  | [a0, a1, a2] =>
    match stub.GetState ("device" ++ a0) with
    | some _ => (shim.Error "Device already enrolled", stub.ledger)
    | none =>
      let device : Device := ⟨a0, a1, a2, "enrolled"⟩
      let deviceAsBytes := jsonMarshalDevice device
      (shim.Success none, (stub.PutState ("device" ++ a0) deviceAsBytes).ledger)
  | _ => (shim.Error "Incorrect number of arguments. Expecting 3", stub.ledger)

/-- Handler `enrollWine`. -/
def enrollWine (stub : Stub) (args : List String) : Response × Ledger :=
  match args with
  | [a0, a1, a2, a3, a4, a5, a6] =>
    match stub.GetState ("device" ++ a0) with
    | none => (shim.Error "Device not enrolled", stub.ledger)
    | some deviceAsBytes =>
      let device := jsonUnmarshalByValue deviceAsBytes Device.zero
      if device.Status ≠ "enrolled" then (shim.Error "Device already used", stub.ledger)
      else
        let device := jsonUnmarshalDevice deviceAsBytes device
        let device := { device with Status := "bind" }
        let deviceAsBytes := jsonMarshalDevice device
        let stub := stub.PutState ("device" ++ a0) deviceAsBytes
        let wine : Wine := ⟨a1, a2, a3, a4, a5, a6, a0⟩
        let wineAsBytes := jsonMarshalWine wine
        (shim.Success none, (stub.PutState ("wine" ++ a0) wineAsBytes).ledger)
  | _ => (shim.Error "Incorrect number of arguments. Expecting 7", stub.ledger)

/-- Method `Init`: succeeds without touching the ledger. -/
def Init (stub : Stub) : Response × Ledger := (shim.Success none, stub.ledger)

/-- Method `Invoke`: `function` and `args` are the two results of
`stub.GetFunctionAndParameters()`. -/
def Invoke (stub : Stub) (function : String) (args : List String) : Response × Ledger :=
  if function = "enrollDevice" then enrollDevice stub args
  else if function = "enrollWine" then enrollWine stub args
  else if function = "transferWine" then transferWine stub args
  else if function = "queryAllCars" then queryWine stub args
  else (shim.Error "Invalid Smart Contract function name.", stub.ledger)

/-! ## Specification vocabulary -/

/-- Stub of a transaction with timestamp `ts` running on ledger `l`. -/
def Stub.on (stub : Stub) (l : Ledger) (ts : Timestamp) : Stub :=
  { stub with ledger := l, TxTimestamp := ts }

/-- Ledgers reachable from the empty ledger by a finite sequence of `Invoke`
calls, each with any function name, argument list and stub environment. -/
inductive Reachable : Ledger → Prop
  | empty : Reachable Ledger.empty
  | step (stub : Stub) (function : String) (args : List String) :
      Reachable stub.ledger → Reachable (Invoke stub function args).2

/-- Status of the device stored at `"device" ++ id`, as a reader that decodes the
stored bytes into a `Device` through a pointer sees it; `none` when the key
holds nothing. -/
def deviceStatus (l : Ledger) (id : String) : Option String :=
  (l.state ("device" ++ id)).map fun v => (jsonUnmarshalDevice v Device.zero).Status

/-- The device stored at `"device" ++ id` exists and has status `s`. -/
def DeviceHasStatus (l : Ledger) (id s : String) : Prop :=
  deviceStatus l id = some s

instance (l : Ledger) (id s : String) : Decidable (DeviceHasStatus l id s) :=
  inferInstanceAs (Decidable (deviceStatus l id = some s))

/-- Pairing of bound devices and wines in a ledger: for every `id` the device at
`"device" ++ id` has status "bind" exactly when a value is stored at
`"wine" ++ id`, and every value stored at `"wine" ++ id` is the encoding of a
wine whose `DeviceUid` is `id`. -/
def Paired (l : Ledger) : Prop :=
  ∀ id : String,
    (DeviceHasStatus l id "bind" ↔ (l.state ("wine" ++ id)).isSome = true) ∧
    ∀ v, l.state ("wine" ++ id) = some v →
      ∃ w : Wine, v = jsonMarshalWine w ∧ w.DeviceUid = id

/-- A stub on the empty ledger, at time zero, rendering every time as `""`. -/
def stub0 : Stub := ⟨Ledger.empty, ⟨0, 0⟩, fun _ _ => ""⟩

/-- Ledger in which device `D1` is bound and carries alice's wine. -/
def boundLedger : Ledger :=
  { state := fun k =>
      if k = "deviceD1" then some (jsonMarshalDevice ⟨"D1", "X1", "Acme", "bind"⟩)
      else if k = "wineD1" then
        some (jsonMarshalWine
          ⟨"alice", "M1", "2020-01-01", "PlaceA", "2020-06-01", "PlaceB", "D1"⟩)
      else none
    history := fun k =>
      if k = "deviceD1" then
        [⟨jsonMarshalDevice ⟨"D1", "X1", "Acme", "enrolled"⟩, ⟨1, 0⟩⟩,
         ⟨jsonMarshalDevice ⟨"D1", "X1", "Acme", "bind"⟩, ⟨2, 0⟩⟩]
      else if k = "wineD1" then
        [⟨jsonMarshalWine
            ⟨"alice", "M1", "2020-01-01", "PlaceA", "2020-06-01", "PlaceB", "D1"⟩, ⟨2, 0⟩⟩]
      else [] }

/-- Arguments of `BindGood("D1", "alice", ...)` in the end-to-end scenario. -/
def bindArgsD1 : List String :=
  ["D1", "alice", "M1", "2020-01-01", "PlaceA", "2020-06-01", "PlaceB"]

/-- Wine of the end-to-end scenario. -/
def wineD1 : Wine :=
  ⟨"alice", "M1", "2020-01-01", "PlaceA", "2020-06-01", "PlaceB", "D1"⟩

/-- Ledger after `EnrollDevice("D1", "X1", "Acme")` on the empty ledger. -/
def afterEnrollD1 : Ledger := (Invoke stub0 "enrollDevice" ["D1", "X1", "Acme"]).2

/-- Ledger after the `BindGood` call of the scenario. -/
def afterBindD1 : Ledger :=
  (Invoke (stub0.on afterEnrollD1 ⟨1, 0⟩) "enrollWine" bindArgsD1).2

/-- Ledger after the `TransferOwnership("D1", "bob")` call of the scenario. -/
def afterTransferD1 : Ledger :=
  (Invoke (stub0.on afterBindD1 ⟨2, 0⟩) "transferWine" ["D1", "bob"]).2

/-- Store key of device `x`: the expression `"device" + args[0]` of the handlers. -/
def deviceKey (x : String) : String := "device" ++ x

/-- Store key of the wine bound to device `x`: the expression `"wine" + args[0]`
of the handlers. -/
def wineKey (x : String) : String := "wine" ++ x

/-- Ledger in which device `D1` is bound and the latest version written to its
wine key is not JSON. -/
def malformedLedger : Ledger :=
  { state := fun k =>
      if k = "deviceD1" then some (jsonMarshalDevice ⟨"D1", "X1", "Acme", "bind"⟩)
      else if k = "wineD1" then some "not json".data
      else none
    history := fun k =>
      if k = "deviceD1" then
        [⟨jsonMarshalDevice ⟨"D1", "X1", "Acme", "enrolled"⟩, ⟨1, 0⟩⟩,
         ⟨jsonMarshalDevice ⟨"D1", "X1", "Acme", "bind"⟩, ⟨2, 0⟩⟩]
      else if k = "wineD1" then
        [⟨jsonMarshalWine
            ⟨"alice", "M1", "2020-01-01", "PlaceA", "2020-06-01", "PlaceB", "D1"⟩, ⟨2, 0⟩⟩,
         ⟨"not json".data, ⟨3, 0⟩⟩]
      else [] }

/-- Ledger in which device `D1` is bound and no wine is stored for it. -/
def boundNoWineLedger : Ledger :=
  { state := fun k =>
      if k = "deviceD1" then some (jsonMarshalDevice ⟨"D1", "X1", "Acme", "bind"⟩) else none
    history := fun k =>
      if k = "deviceD1" then
        [⟨jsonMarshalDevice ⟨"D1", "X1", "Acme", "enrolled"⟩, ⟨1, 0⟩⟩,
         ⟨jsonMarshalDevice ⟨"D1", "X1", "Acme", "bind"⟩, ⟨2, 0⟩⟩]
      else [] }

/-! ## Lemmas on keys and handlers -/

theorem device_key_ne_wine_key (a b : String) : "device" ++ a ≠ "wine" ++ b := by
  intro h
  have hd := congrArg String.data h
  simp at hd

theorem string_append_left_cancel (p a b : String) (h : p ++ a = p ++ b) : a = b := by
  have hd := congrArg String.data h
  simp only [String.data_append] at hd
  exact String.ext (List.append_cancel_left hd)

theorem zero_status_ne_enrolled (data : Bytes) :
    (jsonUnmarshalByValue data Device.zero).Status ≠ "enrolled" := by
  simp [jsonUnmarshalByValue, Device.zero]

theorem zero_status_ne_bind (data : Bytes) :
    (jsonUnmarshalByValue data Device.zero).Status ≠ "bind" := by
  simp [jsonUnmarshalByValue, Device.zero]

/-- With a record of any content at the device key, `enrollWine` answers
"Device already used" and leaves the ledger alone. -/
theorem enrollWine_of_present (stub : Stub) (a0 a1 a2 a3 a4 a5 a6 : String) (v : Bytes)
    (h : stub.GetState ("device" ++ a0) = some v) :
    enrollWine stub [a0, a1, a2, a3, a4, a5, a6]
      = (shim.Error "Device already used", stub.ledger) := by
  simp [enrollWine, h, zero_status_ne_enrolled]

theorem enrollWine_of_absent (stub : Stub) (a0 a1 a2 a3 a4 a5 a6 : String)
    (h : stub.GetState ("device" ++ a0) = none) :
    enrollWine stub [a0, a1, a2, a3, a4, a5, a6]
      = (shim.Error "Device not enrolled", stub.ledger) := by
  simp [enrollWine, h]

/-- With a record of any content at the device key, `transferWine` answers
"Wine not enrolled" and leaves the ledger alone. -/
theorem transferWine_of_present (stub : Stub) (a0 a1 : String) (v : Bytes)
    (h : stub.GetState ("device" ++ a0) = some v) :
    transferWine stub [a0, a1] = (shim.Error "Wine not enrolled", stub.ledger) := by
  simp [transferWine, h, zero_status_ne_bind]

theorem transferWine_of_absent (stub : Stub) (a0 a1 : String)
    (h : stub.GetState ("device" ++ a0) = none) :
    transferWine stub [a0, a1] = (shim.Error "Device not enrolled", stub.ledger) := by
  simp [transferWine, h]

theorem enrollWine_ledger (stub : Stub) (args : List String) :
    (enrollWine stub args).2 = stub.ledger := by
  unfold enrollWine
  split
  · split
    · rfl
    · simp [zero_status_ne_enrolled]
  · rfl

theorem transferWine_ledger (stub : Stub) (args : List String) :
    (transferWine stub args).2 = stub.ledger := by
  unfold transferWine
  split
  · split
    · rfl
    · simp [zero_status_ne_bind]
  · rfl

theorem queryWine_ledger (stub : Stub) (args : List String) :
    (queryWine stub args).2 = stub.ledger := by
  unfold queryWine
  split
  · split
    · rfl
    · simp [zero_status_ne_bind]
  · rfl

theorem enrollDevice_of_present (stub : Stub) (a0 a1 a2 : String) (v : Bytes)
    (h : stub.GetState ("device" ++ a0) = some v) :
    enrollDevice stub [a0, a1, a2] = (shim.Error "Device already enrolled", stub.ledger) := by
  simp [enrollDevice, h]

theorem enrollDevice_of_absent (stub : Stub) (a0 a1 a2 : String)
    (h : stub.GetState ("device" ++ a0) = none) :
    enrollDevice stub [a0, a1, a2]
      = (shim.Success none,
          (stub.PutState ("device" ++ a0) (jsonMarshalDevice ⟨a0, a1, a2, "enrolled"⟩)).ledger) := by
  simp [enrollDevice, h]

/-- The ledger after `enrollDevice` is the one before, or the one before with
a fresh enrolled device written at a key that held nothing. -/
theorem enrollDevice_ledger_cases (stub : Stub) (args : List String) :
    (enrollDevice stub args).2 = stub.ledger ∨
    ∃ a0 a1 a2, stub.ledger.state ("device" ++ a0) = none ∧
      (enrollDevice stub args).2
        = (stub.PutState ("device" ++ a0) (jsonMarshalDevice ⟨a0, a1, a2, "enrolled"⟩)).ledger := by
  unfold enrollDevice
  split
  · rename_i a0 a1 a2
    split
    · exact Or.inl rfl
    · rename_i h
      exact Or.inr ⟨a0, a1, a2, h, rfl⟩
  · exact Or.inl rfl

/-- The ledger after `Invoke` is the one before, or the one before with a fresh
enrolled device written at a key that held nothing. -/
theorem Invoke_ledger_cases (stub : Stub) (function : String) (args : List String) :
    (Invoke stub function args).2 = stub.ledger ∨
    ∃ a0 a1 a2, stub.ledger.state ("device" ++ a0) = none ∧
      (Invoke stub function args).2
        = (stub.PutState ("device" ++ a0) (jsonMarshalDevice ⟨a0, a1, a2, "enrolled"⟩)).ledger := by
  unfold Invoke
  split
  · exact enrollDevice_ledger_cases stub args
  · split
    · exact Or.inl (enrollWine_ledger stub args)
    · split
      · exact Or.inl (transferWine_ledger stub args)
      · split
        · exact Or.inl (queryWine_ledger stub args)
        · exact Or.inl rfl

/-- A key that holds a value keeps that value across `Invoke`. -/
theorem Invoke_state_of_present (stub : Stub) (function : String) (args : List String)
    (k : String) (v : Bytes) (h : stub.ledger.state k = some v) :
    (Invoke stub function args).2.state k = some v := by
  rcases Invoke_ledger_cases stub function args with he | ⟨a0, a1, a2, hn, he⟩
  · rw [he]; exact h
  · rw [he]
    have hk : k ≠ "device" ++ a0 := by
      intro hk
      rw [hk, hn] at h
      exact Option.noConfusion h
    simp [Stub.PutState, hk, h]

/-! ## Round trip of the device codec -/

theorem hexVal_hexDigit_fin : ∀ n : Fin 16, hexVal (hexDigit n.val) = some n.val := by decide

theorem hexVal_hexDigit (n : Nat) : hexVal (hexDigit n) = some (n % 16) := by
  have h := hexVal_hexDigit_fin ⟨n % 16, Nat.mod_lt _ (by decide)⟩
  have hd : hexDigit (n % 16) = hexDigit n := by simp [hexDigit]
  simpa [hd] using h

theorem getu4_small (n : Nat) (h : n < 256) :
    getu4 '0' '0' (hexDigit (n / 16)) (hexDigit n) = some n := by
  have h0 : hexVal '0' = some 0 := by decide
  simp only [getu4, h0, hexVal_hexDigit]
  have : n / 16 % 16 = n / 16 := Nat.mod_eq_of_lt (by omega)
  simp [this]
  omega

theorem char_eq_of_toNat (c : Char) (n : Nat) (h : c.toNat = n) : Char.ofNat n = c := by
  rw [← h]
  exact Char.ofNat_toNat c

/-- Scanning the escape of a character yields that character. -/
theorem scanChar_escape (c : Char) (tail : List Char) :
    scanChar (escapeChar c ++ tail) = some (some c, tail) := by
  unfold escapeChar
  split_ifs with h1 h2 h3 h4 h5 h6 h7 h8
  · rw [h1]; rfl
  · rw [h2]; rfl
  · rw [h3]; rfl
  · rw [h4]; rfl
  · rw [h5]; rfl
  · have hlt : c.toNat < 256 := by
      rcases h6 with h | h | h | h
      · omega
      · rw [h]; decide
      · rw [h]; decide
      · rw [h]; decide
    have hg := getu4_small c.toNat hlt
    simp only [List.cons_append, List.nil_append, scanChar, scanEscape, scanUnicode, hg]
    have hns : ¬ (0xD800 ≤ c.toNat ∧ c.toNat < 0xE000) := by omega
    simp [hns, Char.ofNat_toNat]
  · have hc := char_eq_of_toNat c _ h7
    have he : scanChar ("\\u2028".data ++ tail) = some (some (Char.ofNat 0x2028), tail) := rfl
    rw [he, hc]
  · have hc := char_eq_of_toNat c _ h8
    have he : scanChar ("\\u2029".data ++ tail) = some (some (Char.ofNat 0x2029), tail) := rfl
    rw [he, hc]
  · have hlt : ¬ c.toNat < 32 := fun h => h6 (Or.inl h)
    simp [scanChar, h1, h2, hlt]

/-- Scanning an escaped text up to its closing quote yields the text, given
fuel beyond its length. -/
theorem scanString_escape (s : List Char) : ∀ (fuel : Nat) (rest : List Char),
    s.length < fuel →
    scanString fuel (s.flatMap escapeChar ++ '"' :: rest) = some (s, rest) := by
  induction s with
  | nil =>
    intro fuel rest h
    obtain ⟨f, rfl⟩ : ∃ f, fuel = f + 1 := ⟨fuel - 1, by simp at h; omega⟩
    simp [scanString, scanChar]
  | cons c s ih =>
    intro fuel rest h
    obtain ⟨f, rfl⟩ : ∃ f, fuel = f + 1 := ⟨fuel - 1, by simp at h; omega⟩
    have hf : s.length < f := by simpa using h
    simp only [List.flatMap_cons, List.append_assoc]
    rw [scanString, scanChar_escape]
    simp [ih f rest hf]

theorem length_le_flatMap_escape (s : List Char) :
    s.length ≤ (s.flatMap escapeChar).length := by
  induction s with
  | nil => simp
  | cons c s ih =>
    have hc : 1 ≤ (escapeChar c).length := by
      unfold escapeChar
      split_ifs <;> simp
    simp only [List.flatMap_cons, List.length_append, List.length_cons]
    omega

/-- The literal written for `s`, scanned after its opening quote with the fuel
the parser gives it, yields `s`. -/
theorem scanString_jsonString (s : String) (rest : List Char) :
    scanString ((s.data.flatMap escapeChar ++ '"' :: rest).length + 1)
      (s.data.flatMap escapeChar ++ '"' :: rest) = some (s.data, rest) := by
  apply scanString_escape
  have := length_le_flatMap_escape s.data
  simp only [List.length_append]
  omega

theorem skipSpace_cons (c : Char) (cs : List Char) (h : isSpace c = false) :
    skipSpace (c :: cs) = c :: cs := by
  simp [skipSpace, h]

theorem jsonString_append (s : String) (rest : List Char) :
    jsonString s ++ rest = '"' :: (s.data.flatMap escapeChar ++ '"' :: rest) := by
  simp [jsonString]

/-- A string literal at the head of the input parses to its text. -/
theorem parseValue_jsonString (s : String) (fuel : Nat) (rest : List Char) :
    parseValue (fuel + 1) (jsonString s ++ rest) = some (JValue.string s.data, rest) := by
  have hs := scanString_jsonString s rest
  rw [jsonString_append, parseValue]
  simp only [List.head?_cons, scanScalar, hs]
  simp

/-- The key `k` and its colon, scanned. -/
theorem scanKey_jsonString (k : String) (c : Char) (rest : List Char) (hc : isSpace c = false) :
    scanKey (jsonString k ++ ':' :: c :: rest) = some (k.data, c :: rest) := by
  have hs := scanString_jsonString k (':' :: c :: rest)
  rw [jsonString_append]
  have h1 : skipSpace (':' :: c :: rest) = ':' :: c :: rest := skipSpace_cons _ _ (by decide)
  have h2 : skipSpace (c :: rest) = c :: rest := skipSpace_cons _ _ hc
  simp only [scanKey, List.head?_cons, List.tail_cons, hs]
  simp [h1, h2]

/-- A member with string value that closes the object. -/
theorem parseMembers_last (k s : String) (fuel : Nat) (rest : List Char) :
    parseMembers (fuel + 2) (jsonString k ++ ':' :: (jsonString s ++ '\x7d' :: rest))
      = some ([(k.data, JValue.string s.data)], rest) := by
  have hv := parseValue_jsonString s fuel ('\x7d' :: rest)
  rw [parseMembers]
  rw [jsonString_append s] at hv ⊢
  rw [scanKey_jsonString k '"' _ (by decide)]
  simp only [Option.some_bind, hv]
  simp [skipSpace, isSpace]

/-- A member with string value that is followed by another member. -/
theorem parseMembers_more (k s k2 : String) (fuel : Nat) (rest : List Char) :
    parseMembers (fuel + 2) (jsonString k ++ ':' :: (jsonString s ++ ',' :: (jsonString k2 ++ rest)))
      = (parseMembers (fuel + 1) (jsonString k2 ++ rest)).map
          fun r => ((k.data, JValue.string s.data) :: r.1, r.2) := by
  have hv := parseValue_jsonString s fuel (',' :: (jsonString k2 ++ rest))
  rw [parseMembers]
  rw [jsonString_append s] at hv ⊢
  rw [scanKey_jsonString k '"' _ (by decide)]
  simp only [Option.some_bind, hv]
  rw [jsonString_append k2]
  simp [skipSpace, isSpace]

/-- Layout of an encoded device as key and value literals. -/
theorem jsonMarshalDevice_layout (d : Device) :
    jsonMarshalDevice d
      = '\x7b' :: (jsonString "uid" ++ ':' :: (jsonString d.Uid ++ ',' ::
          (jsonString "model" ++ ':' :: (jsonString d.Model ++ ',' ::
          (jsonString "brand" ++ ':' :: (jsonString d.Brand ++ ',' ::
          (jsonString "status" ++ ':' :: (jsonString d.Status ++ '\x7d' :: [])))))))) := by
  have h1 : jsonString "uid" = "\"uid\"".data := by decide
  have h2 : jsonString "model" = "\"model\"".data := by decide
  have h3 : jsonString "brand" = "\"brand\"".data := by decide
  have h4 : jsonString "status" = "\"status\"".data := by decide
  rw [h1, h2, h3, h4]
  simp [jsonMarshalDevice]

/-- The encoding of a device parses, with any fuel from six on, to an object
with its four members, consuming the whole input. -/
theorem parseValue_jsonMarshalDevice (d : Device) (fuel : Nat) :
    parseValue (fuel + 6) (jsonMarshalDevice d)
      = some (JValue.object
          [("uid".data, JValue.string d.Uid.data), ("model".data, JValue.string d.Model.data),
           ("brand".data, JValue.string d.Brand.data),
           ("status".data, JValue.string d.Status.data)], []) := by
  rw [jsonMarshalDevice_layout, parseValue]
  simp only [List.head?_cons, List.tail_cons]
  rw [jsonString_append "uid", skipSpace_cons _ _ (by decide), ← jsonString_append "uid"]
  rw [parseMembers_more, parseMembers_more, parseMembers_more, parseMembers_last]
  rw [jsonString_append "uid"]
  simp

theorem jsonMarshalDevice_length (d : Device) : 5 ≤ (jsonMarshalDevice d).length := by
  rw [jsonMarshalDevice_layout]
  simp [jsonString]
  omega

/-- The encoding of a device is valid JSON: an object with its four members. -/
theorem parseJSON_jsonMarshalDevice (d : Device) :
    parseJSON (jsonMarshalDevice d)
      = some (JValue.object
          [("uid".data, JValue.string d.Uid.data), ("model".data, JValue.string d.Model.data),
           ("brand".data, JValue.string d.Brand.data),
           ("status".data, JValue.string d.Status.data)]) := by
  obtain ⟨f, hf⟩ : ∃ f, (jsonMarshalDevice d).length + 1 = f + 6 :=
    ⟨(jsonMarshalDevice d).length - 5, by have := jsonMarshalDevice_length d; omega⟩
  have hsp : skipSpace (jsonMarshalDevice d) = jsonMarshalDevice d := by
    rw [jsonMarshalDevice_layout]
    exact skipSpace_cons _ _ (by decide)
  rw [parseJSON, hsp, hf, parseValue_jsonMarshalDevice]
  simp [skipSpace]

/-- Decoding the encoding of a device through a pointer yields that device,
whatever the target held before. -/
theorem jsonUnmarshalDevice_jsonMarshalDevice (d d0 : Device) :
    jsonUnmarshalDevice (jsonMarshalDevice d) d0 = d := by
  have hu : "uid".data.map foldRune = "uid".data := by decide
  have hm : "model".data.map foldRune = "model".data := by decide
  have hb : "brand".data.map foldRune = "brand".data := by decide
  have hs : "status".data.map foldRune = "status".data := by decide
  have n1 : "model".data ≠ "uid".data := by decide
  have n2 : "brand".data ≠ "uid".data := by decide
  have n3 : "brand".data ≠ "model".data := by decide
  have n4 : "status".data ≠ "uid".data := by decide
  have n5 : "status".data ≠ "model".data := by decide
  have n6 : "status".data ≠ "brand".data := by decide
  rw [jsonUnmarshalDevice, parseJSON_jsonMarshalDevice]
  simp only [List.foldl_cons, List.foldl_nil, Device.setMember, hu, hm, hb, hs]
  simp [n1, n2, n3, n4, n5, n6]

/-- A key that holds the encoding of a device shows that device's status. -/
theorem deviceStatus_of_encoded (l : Ledger) (id : String) (d : Device)
    (h : l.state ("device" ++ id) = some (jsonMarshalDevice d)) :
    deviceStatus l id = some d.Status := by
  simp [deviceStatus, h, jsonUnmarshalDevice_jsonMarshalDevice]

/-- A device with a status holds some value at its key. -/
theorem state_of_DeviceHasStatus (l : Ledger) (id s : String) (h : DeviceHasStatus l id s) :
    ∃ v, l.state ("device" ++ id) = some v := by
  unfold DeviceHasStatus deviceStatus at h
  cases hv : l.state ("device" ++ id) with
  | none => simp [hv] at h
  | some v => exact ⟨v, rfl⟩

/-! ## UTF-8 and the device codec on bytes -/

theorem toNat_ofNat_valid (n : Nat) (h : n.isValidChar) : (Char.ofNat n).toNat = n := by
  simp only [Char.ofNat, h, dite_true, Char.ofNatAux, Char.toNat]
  rfl

theorem byte_eq (b : Byte) (n : Nat) (h : n = b.val) : byte n = b := by
  apply Fin.ext
  have := b.isLt
  simp only [byte]
  omega

theorem encodeRune_ofNat (n : Nat) (h : n.isValidChar) :
    encodeRune (Char.ofNat n) =
      if n < 0x80 then [byte n]
      else if n < 0x800 then [byte (0xC0 + n / 64), byte (0x80 + n % 64)]
      else if n < 0x10000 then
        [byte (0xE0 + n / 4096), byte (0x80 + n / 64 % 64), byte (0x80 + n % 64)]
      else
        [byte (0xF0 + n / 262144), byte (0x80 + n / 4096 % 64),
          byte (0x80 + n / 64 % 64), byte (0x80 + n % 64)] := by
  simp only [encodeRune, toNat_ofNat_valid n h]

theorem isSecond_bounds (b0 b1 : Byte) (h : isSecond b0 b1 = true) :
    acceptLo b0 ≤ b1.val ∧ b1.val ≤ acceptHi b0 := by
  simpa [isSecond] using h

theorem isCont_bounds (b : Byte) (h : isCont b = true) : 0x80 ≤ b.val ∧ b.val ≤ 0xBF := by
  simpa [isCont] using h

theorem acceptLo_cases (b : Byte) :
    (b.val = 0xE0 ∧ acceptLo b = 0xA0) ∨ (b.val = 0xF0 ∧ acceptLo b = 0x90) ∨
    (b.val ≠ 0xE0 ∧ b.val ≠ 0xF0 ∧ acceptLo b = 0x80) := by
  unfold acceptLo
  split_ifs with h1 h2
  · exact Or.inl ⟨h1, rfl⟩
  · exact Or.inr (Or.inl ⟨h2, rfl⟩)
  · exact Or.inr (Or.inr ⟨h1, h2, rfl⟩)

theorem acceptHi_cases (b : Byte) :
    (b.val = 0xED ∧ acceptHi b = 0x9F) ∨ (b.val = 0xF4 ∧ acceptHi b = 0x8F) ∨
    (b.val ≠ 0xED ∧ b.val ≠ 0xF4 ∧ acceptHi b = 0xBF) := by
  unfold acceptHi
  split_ifs with h1 h2
  · exact Or.inl ⟨h1, rfl⟩
  · exact Or.inr (Or.inl ⟨h2, rfl⟩)
  · exact Or.inr (Or.inr ⟨h1, h2, rfl⟩)

theorem encodeRune_decodeRune2 (b : Byte) (rest : List Byte) (c : Char) (n : Nat)
    (h1 : 0xC2 ≤ b.val) (h2 : b.val < 0xE0)
    (h : decodeRune2 b rest = (some c, n)) :
    1 ≤ n ∧ encodeRune c ++ (b :: rest).drop n = b :: rest := by
  cases rest with
  | nil => simp [decodeRune2] at h
  | cons b1 rest =>
    simp only [decodeRune2] at h
    split_ifs at h with hs
    · simp only [Prod.mk.injEq, Option.some.injEq] at h
      obtain ⟨rfl, rfl⟩ := h
      have hb1 := b1.isLt
      have hs := isSecond_bounds b b1 hs
      have hlo := acceptLo_cases b
      have hhi := acceptHi_cases b
      have hv : (b.val % 32 * 64 + b1.val % 64).isValidChar := Or.inl (by omega)
      rw [encodeRune_ofNat _ hv]
      have g1 : ¬ (b.val % 32 * 64 + b1.val % 64 < 0x80) := by omega
      have g2 : b.val % 32 * 64 + b1.val % 64 < 0x800 := by omega
      simp only [g1, g2, if_false, if_true]
      refine ⟨by omega, ?_⟩
      rw [byte_eq b _ (by omega), byte_eq b1 _ (by omega)]
      simp
    · simp at h

theorem encodeRune_decodeRune3 (b : Byte) (rest : List Byte) (c : Char) (n : Nat)
    (h1 : 0xE0 ≤ b.val) (h2 : b.val < 0xF0)
    (h : decodeRune3 b rest = (some c, n)) :
    1 ≤ n ∧ encodeRune c ++ (b :: rest).drop n = b :: rest := by
  match rest with
  | [] => simp [decodeRune3] at h
  | [_] => simp [decodeRune3] at h
  | b1 :: b2 :: rest =>
    simp only [decodeRune3] at h
    split_ifs at h with hs
    · simp only [Prod.mk.injEq, Option.some.injEq] at h
      obtain ⟨rfl, rfl⟩ := h
      have hb1 := b1.isLt
      have hb2 := b2.isLt
      simp only [Bool.and_eq_true] at hs
      have hs1 := isSecond_bounds b b1 hs.1
      have hs2 := isCont_bounds b2 hs.2
      have hlo := acceptLo_cases b
      have hhi := acceptHi_cases b
      have hv : (b.val % 16 * 4096 + b1.val % 64 * 64 + b2.val % 64).isValidChar := by
        unfold Nat.isValidChar
        omega
      rw [encodeRune_ofNat _ hv]
      have g1 : ¬ (b.val % 16 * 4096 + b1.val % 64 * 64 + b2.val % 64 < 0x80) := by omega
      have g2 : ¬ (b.val % 16 * 4096 + b1.val % 64 * 64 + b2.val % 64 < 0x800) := by omega
      have g3 : b.val % 16 * 4096 + b1.val % 64 * 64 + b2.val % 64 < 0x10000 := by omega
      simp only [g1, g2, g3, if_false, if_true]
      refine ⟨by omega, ?_⟩
      rw [byte_eq b _ (by omega), byte_eq b1 _ (by omega), byte_eq b2 _ (by omega)]
      simp
    · simp at h

theorem encodeRune_decodeRune4 (b : Byte) (rest : List Byte) (c : Char) (n : Nat)
    (h1 : 0xF0 ≤ b.val) (h2 : b.val < 0xF5)
    (h : decodeRune4 b rest = (some c, n)) :
    1 ≤ n ∧ encodeRune c ++ (b :: rest).drop n = b :: rest := by
  match rest with
  | [] => simp [decodeRune4] at h
  | [_] => simp [decodeRune4] at h
  | [_, _] => simp [decodeRune4] at h
  | b1 :: b2 :: b3 :: rest =>
    simp only [decodeRune4] at h
    split_ifs at h with hs
    · simp only [Prod.mk.injEq, Option.some.injEq] at h
      obtain ⟨rfl, rfl⟩ := h
      have hb1 := b1.isLt
      have hb2 := b2.isLt
      have hb3 := b3.isLt
      simp only [Bool.and_eq_true] at hs
      have hs1 := isSecond_bounds b b1 hs.1.1
      have hs2 := isCont_bounds b2 hs.1.2
      have hs3 := isCont_bounds b3 hs.2
      have hlo := acceptLo_cases b
      have hhi := acceptHi_cases b
      have hv : (b.val % 8 * 262144 + b1.val % 64 * 4096 + b2.val % 64 * 64
          + b3.val % 64).isValidChar := by
        unfold Nat.isValidChar
        omega
      rw [encodeRune_ofNat _ hv]
      have g1 : ¬ (b.val % 8 * 262144 + b1.val % 64 * 4096 + b2.val % 64 * 64
          + b3.val % 64 < 0x80) := by omega
      have g2 : ¬ (b.val % 8 * 262144 + b1.val % 64 * 4096 + b2.val % 64 * 64
          + b3.val % 64 < 0x800) := by omega
      have g3 : ¬ (b.val % 8 * 262144 + b1.val % 64 * 4096 + b2.val % 64 * 64
          + b3.val % 64 < 0x10000) := by omega
      simp only [g1, g2, g3, if_false]
      refine ⟨by omega, ?_⟩
      rw [byte_eq b _ (by omega), byte_eq b1 _ (by omega), byte_eq b2 _ (by omega),
        byte_eq b3 _ (by omega)]
      simp
    · simp at h

/-- A rune that decodes has a width of at least one byte, and its encoding is
the bytes it was decoded from. -/
theorem encodeRune_decodeRune (b : Byte) (rest : List Byte) (c : Char) (n : Nat)
    (h : decodeRune (b :: rest) = (some c, n)) :
    1 ≤ n ∧ encodeRune c ++ (b :: rest).drop n = b :: rest := by
  have hb := b.isLt
  simp only [decodeRune] at h
  split_ifs at h with h1 h2 h3 h4 h5
  · simp only [Prod.mk.injEq, Option.some.injEq] at h
    obtain ⟨rfl, rfl⟩ := h
    have hv : (b.val).isValidChar := Or.inl (by omega)
    rw [encodeRune_ofNat _ hv]
    simp [h1, byte_eq b b.val rfl]
  · simp at h
  · exact encodeRune_decodeRune2 b rest c n (by omega) h3 h
  · exact encodeRune_decodeRune3 b rest c n (by omega) h4 h
  · exact encodeRune_decodeRune4 b rest c n (by omega) h5 h
  · simp at h

theorem decodeRunesFrom_drop (s : List Byte) : ∀ k : Nat,
    decodeRunesFrom k s = decodeRunesFrom 0 (s.drop k) := by
  induction s with
  | nil => intro k; cases k <;> simp [decodeRunesFrom]
  | cons b rest ih =>
    intro k
    cases k with
    | zero => simp
    | succ k => simp only [decodeRunesFrom, List.drop_succ_cons]; exact ih k

theorem decodeRune_width_pos (b : Byte) (rest : List Byte) :
    1 ≤ (decodeRune (b :: rest)).2 := by
  simp only [decodeRune]
  split_ifs
  · simp
  · simp
  · unfold decodeRune2
    split
    · split_ifs <;> simp
    · simp
  · unfold decodeRune3
    split
    · split_ifs <;> simp
    · simp
  · unfold decodeRune4
    split
    · split_ifs <;> simp
    · simp
  · simp

/-- The runes of a non-empty string are its first rune and the runes of what
follows it. -/
theorem decodeRunes_cons (b : Byte) (rest : List Byte) :
    decodeRunes (b :: rest)
      = (decodeRune (b :: rest)).1 :: decodeRunes ((b :: rest).drop (decodeRune (b :: rest)).2) := by
  have hpos := decodeRune_width_pos b rest
  obtain ⟨n, hn⟩ : ∃ n, (decodeRune (b :: rest)).2 = n + 1 :=
    ⟨(decodeRune (b :: rest)).2 - 1, by omega⟩
  simp only [decodeRunes, decodeRunesFrom]
  rw [decodeRunesFrom_drop, hn]
  simp

theorem valid_round_trip_aux : ∀ (m : Nat) (s : List Byte), s.length ≤ m → validUTF8 s = true →
    decodeRunes s = (decodeText s).map some ∧ utf8Encode (decodeText s) = s := by
  intro m
  induction m with
  | zero =>
    intro s hl _
    have : s = [] := List.length_eq_zero.mp (by omega)
    subst this
    simp [decodeRunes, decodeRunesFrom, decodeText, utf8Encode]
  | succ m ih =>
    intro s hl hv
    cases s with
    | nil => simp [decodeRunes, decodeRunesFrom, decodeText, utf8Encode]
    | cons b rest =>
      have hc := decodeRunes_cons b rest
      simp only [validUTF8, hc, List.all_cons, Bool.and_eq_true] at hv
      obtain ⟨h1, h2⟩ := hv
      obtain ⟨c, hr⟩ := Option.isSome_iff_exists.mp h1
      have hd : decodeRune (b :: rest) = (some c, (decodeRune (b :: rest)).2) := by
        rw [← hr]
      obtain ⟨hpos, henc⟩ := encodeRune_decodeRune b rest c _ hd
      have hlen : ((b :: rest).drop (decodeRune (b :: rest)).2).length ≤ m := by
        simp only [List.length_drop, List.length_cons] at hl ⊢
        omega
      obtain ⟨i1, i2⟩ := ih _ hlen h2
      constructor
      · simp only [decodeText, hc, List.map_cons, hr, Option.getD_some]
        rw [List.map_map]
        congr 1
        rw [i1]
        simp [decodeText, List.map_map]
      · simp only [decodeText, hc, List.map_cons, hr, Option.getD_some, utf8Encode,
          List.flatMap_cons]
        have i2b : (decodeText ((b :: rest).drop (decodeRune (b :: rest)).2)).flatMap encodeRune
            = (b :: rest).drop (decodeRune (b :: rest)).2 := i2
        simp only [decodeText] at i2b
        rw [i2b]
        exact henc

/-- A valid UTF-8 string has no undecodable byte and is the encoding of its
text. -/
theorem valid_round_trip (s : GoString) (h : validUTF8 s = true) :
    decodeRunes s = (decodeText s).map some ∧ utf8Encode (decodeText s) = s :=
  valid_round_trip_aux s.length s (Nat.le_refl _) h

/-- The literal written for a valid UTF-8 string is the literal of its text. -/
theorem jsonStringBytes_of_valid (s : GoString) (h : validUTF8 s = true) :
    jsonStringBytes s = jsonString (String.mk (decodeText s)) := by
  have hr := (valid_round_trip s h).1
  simp only [jsonStringBytes, jsonString, hr, List.flatMap_map]
  rfl

/-- The encoding of a device with valid UTF-8 fields is the encoding of its
text. -/
theorem jsonMarshalRawDevice_of_valid (d : RawDevice)
    (hu : validUTF8 d.Uid = true) (hm : validUTF8 d.Model = true)
    (hb : validUTF8 d.Brand = true) (hs : validUTF8 d.Status = true) :
    jsonMarshalRawDevice d = jsonMarshalDevice d.text := by
  simp only [jsonMarshalRawDevice, jsonMarshalDevice, RawDevice.text,
    jsonStringBytes_of_valid _ hu, jsonStringBytes_of_valid _ hm,
    jsonStringBytes_of_valid _ hb, jsonStringBytes_of_valid _ hs]

/-- Decoding the encoding of a text device into a device on bytes stores the
UTF-8 bytes of each field. -/
theorem jsonUnmarshalRawDevice_jsonMarshalDevice (d : Device) (d0 : RawDevice) :
    jsonUnmarshalRawDevice (jsonMarshalDevice d) d0
      = ⟨utf8Encode d.Uid.data, utf8Encode d.Model.data, utf8Encode d.Brand.data,
          utf8Encode d.Status.data⟩ := by
  have hu : "uid".data.map foldRune = "uid".data := by decide
  have hm : "model".data.map foldRune = "model".data := by decide
  have hb : "brand".data.map foldRune = "brand".data := by decide
  have hs : "status".data.map foldRune = "status".data := by decide
  have n1 : "model".data ≠ "uid".data := by decide
  have n2 : "brand".data ≠ "uid".data := by decide
  have n3 : "brand".data ≠ "model".data := by decide
  have n4 : "status".data ≠ "uid".data := by decide
  have n5 : "status".data ≠ "model".data := by decide
  have n6 : "status".data ≠ "brand".data := by decide
  rw [jsonUnmarshalRawDevice, parseJSON_jsonMarshalDevice]
  simp only [List.foldl_cons, List.foldl_nil, RawDevice.setMember, hu, hm, hb, hs]
  simp [n1, n2, n3, n4, n5, n6]

/-! ## Reachable ledgers -/

/-- In a reachable ledger every key that holds a value is a device key, and
the value is the encoding of that device with status "enrolled". -/
theorem reachable_only_enrolled (l : Ledger) (h : Reachable l) :
    ∀ k v, l.state k = some v →
      ∃ id m b, k = "device" ++ id ∧ v = jsonMarshalDevice ⟨id, m, b, "enrolled"⟩ := by
  induction h with
  | empty =>
    intro k v hk
    simp [Ledger.empty] at hk
  | step stub function args _ ih =>
    intro k v hk
    rcases Invoke_ledger_cases stub function args with he | ⟨a0, a1, a2, _, he⟩
    · rw [he] at hk
      exact ih k v hk
    · rw [he] at hk
      by_cases hkey : k = "device" ++ a0
      · simp [Stub.PutState, hkey] at hk
        exact ⟨a0, a1, a2, hkey, hk.symm⟩
      · simp [Stub.PutState, hkey] at hk
        exact ih k v hk

/-- No reachable ledger holds a value at a wine key. -/
theorem reachable_no_wine (l : Ledger) (h : Reachable l) (id : String) :
    l.state ("wine" ++ id) = none := by
  cases hv : l.state ("wine" ++ id) with
  | none => rfl
  | some v =>
    obtain ⟨id2, _, _, hk, _⟩ := reachable_only_enrolled l h _ v hv
    exact absurd hk.symm (device_key_ne_wine_key id2 id)

/-- No reachable ledger holds a bound device. -/
theorem reachable_no_bind (l : Ledger) (h : Reachable l) (id : String) :
    ¬ DeviceHasStatus l id "bind" := by
  intro hb
  obtain ⟨v, hs⟩ := state_of_DeviceHasStatus l id _ hb
  obtain ⟨id2, m, b, _, hv⟩ := reachable_only_enrolled l h _ _ hs
  rw [hv] at hs
  have he := deviceStatus_of_encoded l id _ hs
  rw [DeviceHasStatus, he] at hb
  simp at hb

/-! ## Pairing of bound devices and wines -/

theorem empty_paired : Paired Ledger.empty := by
  intro id
  refine ⟨⟨fun hb => ?_, fun hs => ?_⟩, fun v hv => ?_⟩
  · obtain ⟨v, hv⟩ := state_of_DeviceHasStatus _ _ _ hb
    simp [Ledger.empty] at hv
  · simp [Ledger.empty] at hs
  · simp [Ledger.empty] at hv

/-- The ledger with a bound device `D1` and alice's wine is paired. -/
theorem boundLedger_paired : Paired boundLedger := by
  intro id
  by_cases hid : id = "D1"
  · subst hid
    refine ⟨⟨fun _ => by decide, fun _ => by decide⟩, fun v hv => ?_⟩
    have hs : boundLedger.state ("wine" ++ "D1") = some (jsonMarshalWine wineD1) := by decide
    rw [hs] at hv
    exact ⟨wineD1, (Option.some.inj hv).symm, rfl⟩
  · have hd : "device" ++ id ≠ "deviceD1" :=
      fun e => hid (string_append_left_cancel "device" id "D1" e)
    have hw : "wine" ++ id ≠ "wineD1" :=
      fun e => hid (string_append_left_cancel "wine" id "D1" e)
    have hwd : "wine" ++ id ≠ "deviceD1" := (device_key_ne_wine_key "D1" id).symm
    have hdw : "device" ++ id ≠ "wineD1" := device_key_ne_wine_key id "D1"
    have s1 : boundLedger.state ("device" ++ id) = none := by simp [boundLedger, hd, hdw]
    have s2 : boundLedger.state ("wine" ++ id) = none := by simp [boundLedger, hw, hwd]
    refine ⟨⟨fun hb => ?_, fun hs => ?_⟩, fun v hv => ?_⟩
    · obtain ⟨v, hv⟩ := state_of_DeviceHasStatus _ _ _ hb
      rw [s1] at hv
      exact Option.noConfusion hv
    · rw [s2] at hs
      exact absurd hs (by decide)
    · rw [s2] at hv
      exact Option.noConfusion hv

/-- One `Invoke` call takes a paired ledger to a paired ledger: its only write
is an enrolled device at a device key that held nothing, and the wine key of
that device holds nothing in a paired ledger. -/
theorem Invoke_preserves_paired (stub : Stub) (function : String) (args : List String)
    (h : Paired stub.ledger) : Paired (Invoke stub function args).2 := by
  rcases Invoke_ledger_cases stub function args with he | ⟨a0, a1, a2, hn, he⟩
  · rw [he]
    exact h
  · rw [he]
    intro id
    obtain ⟨hiff, huid⟩ := h id
    have hk : "wine" ++ id ≠ "device" ++ a0 := (device_key_ne_wine_key a0 id).symm
    have hw : (stub.PutState ("device" ++ a0)
        (jsonMarshalDevice ⟨a0, a1, a2, "enrolled"⟩)).ledger.state ("wine" ++ id)
          = stub.ledger.state ("wine" ++ id) := by
      simp [Stub.PutState, hk]
    by_cases hid : id = a0
    · subst hid
      have hnb : ¬ DeviceHasStatus stub.ledger id "bind" := by
        intro hb
        obtain ⟨v, hv⟩ := state_of_DeviceHasStatus _ _ _ hb
        rw [hn] at hv
        exact Option.noConfusion hv
      have hnw : stub.ledger.state ("wine" ++ id) = none := by
        cases hs : stub.ledger.state ("wine" ++ id) with
        | none => rfl
        | some v => exact absurd (hiff.mpr (by simp [hs])) hnb
      have hst : deviceStatus (stub.PutState ("device" ++ id)
          (jsonMarshalDevice ⟨id, a1, a2, "enrolled"⟩)).ledger id = some "enrolled" :=
        deviceStatus_of_encoded _ _ ⟨id, a1, a2, "enrolled"⟩ (by simp [Stub.PutState])
      refine ⟨⟨fun hb => ?_, fun hs => ?_⟩, fun v hv => ?_⟩
      · rw [DeviceHasStatus, hst] at hb
        simp at hb
      · rw [hw, hnw] at hs
        exact absurd hs (by decide)
      · rw [hw, hnw] at hv
        exact Option.noConfusion hv
    · have hkd : "device" ++ id ≠ "device" ++ a0 :=
        fun e => hid (string_append_left_cancel "device" id a0 e)
      have hd : (stub.PutState ("device" ++ a0)
          (jsonMarshalDevice ⟨a0, a1, a2, "enrolled"⟩)).ledger.state ("device" ++ id)
            = stub.ledger.state ("device" ++ id) := by
        simp [Stub.PutState, hkd]
      have hds : DeviceHasStatus (stub.PutState ("device" ++ a0)
          (jsonMarshalDevice ⟨a0, a1, a2, "enrolled"⟩)).ledger id "bind"
            ↔ DeviceHasStatus stub.ledger id "bind" := by
        simp [DeviceHasStatus, deviceStatus, hd]
      rw [hds, hw]
      exact ⟨hiff, huid⟩

/-! ## Claims -/

/-- C1, which fails on the code: `enrollWine` on a device that `enrollDevice`
has just enrolled does not succeed. The device bytes are decoded into a copy
(`json.Unmarshal(deviceAsBytes, device)`), the status read is empty, and the
call answers "Device already used", writing neither the device nor the wine. -/
theorem enrollWine_rejects_enrolled_device :
    (enrollDevice stub0 ["D1", "X1", "Acme"]).1 = shim.Success none ∧
    afterEnrollD1.state ("device" ++ "D1")
      = some (jsonMarshalDevice ⟨"D1", "X1", "Acme", "enrolled"⟩) ∧
    DeviceHasStatus afterEnrollD1 "D1" "enrolled" ∧
    (enrollWine (stub0.on afterEnrollD1 ⟨1, 0⟩) bindArgsD1).1
      = shim.Error "Device already used" ∧
    (enrollWine (stub0.on afterEnrollD1 ⟨1, 0⟩) bindArgsD1).2.state ("device" ++ "D1")
      = some (jsonMarshalDevice ⟨"D1", "X1", "Acme", "enrolled"⟩) ∧
    (enrollWine (stub0.on afterEnrollD1 ⟨1, 0⟩) bindArgsD1).2.state ("wine" ++ "D1") = none := by
  decide

/-- C2, which fails on the code: in the scenario D1 (enroll, bind for alice,
transfer to bob, query) only the enrollment succeeds; the bind is answered
"Device already used", the transfer and the query "Wine not enrolled", and the
history of the wine key stays empty instead of holding alice then bob. -/
theorem scenario_D1_history_missing :
    (Invoke stub0 "enrollDevice" ["D1", "X1", "Acme"]).1 = shim.Success none ∧
    (Invoke (stub0.on afterEnrollD1 ⟨1, 0⟩) "enrollWine" bindArgsD1).1
      = shim.Error "Device already used" ∧
    (Invoke (stub0.on afterBindD1 ⟨2, 0⟩) "transferWine" ["D1", "bob"]).1
      = shim.Error "Wine not enrolled" ∧
    (Invoke (stub0.on afterTransferD1 ⟨3, 0⟩) "queryAllCars" ["D1"]).1
      = shim.Error "Wine not enrolled" ∧
    afterTransferD1.history ("wine" ++ "D1") = [] := by
  decide

/-- C3, which fails on the code: on a ledger where device D1 is bound and
carries alice's wine, `transferWine ["D1", "bob"]` does not succeed; it answers
"Wine not enrolled" and the stored wine still has owner alice. -/
theorem transferWine_rejects_bound_device :
    boundLedger.state ("device" ++ "D1")
      = some (jsonMarshalDevice ⟨"D1", "X1", "Acme", "bind"⟩) ∧
    boundLedger.state ("wine" ++ "D1") = some (jsonMarshalWine wineD1) ∧
    DeviceHasStatus boundLedger "D1" "bind" ∧
    (transferWine (stub0.on boundLedger ⟨3, 0⟩) ["D1", "bob"]).1
      = shim.Error "Wine not enrolled" ∧
    (transferWine (stub0.on boundLedger ⟨3, 0⟩) ["D1", "bob"]).2.state ("wine" ++ "D1")
      = some (jsonMarshalWine wineD1) := by
  decide

/-- C4: when no value is stored at `"device" ++ id`, `enrollDevice [id, model, brand]`
succeeds and the resulting world state is the original one updated at that
single key with the encoding of the device with status "enrolled"; the history
grows by that one version at that key only, and no wine key changes. -/
theorem enrollDevice_postcondition (stub : Stub) (id model brand : String)
    (h : stub.GetState ("device" ++ id) = none) :
    (enrollDevice stub [id, model, brand]).1 = shim.Success none ∧
    (enrollDevice stub [id, model, brand]).2.state
      = Function.update stub.ledger.state ("device" ++ id)
          (some (jsonMarshalDevice ⟨id, model, brand, "enrolled"⟩)) ∧
    (enrollDevice stub [id, model, brand]).2.history
      = Function.update stub.ledger.history ("device" ++ id)
          (stub.ledger.history ("device" ++ id)
            ++ [⟨jsonMarshalDevice ⟨id, model, brand, "enrolled"⟩, stub.TxTimestamp⟩]) ∧
    ∀ x, (enrollDevice stub [id, model, brand]).2.state ("wine" ++ x)
      = stub.ledger.state ("wine" ++ x) := by
  rw [enrollDevice_of_absent stub id model brand h]
  refine ⟨rfl, ?_, ?_, ?_⟩
  · funext k
    simp [Stub.PutState, Function.update]
  · funext k
    by_cases hk : k = "device" ++ id
    · subst hk
      simp [Stub.PutState, Function.update]
    · simp [Stub.PutState, Function.update, hk]
  · intro x
    have hx : "wine" ++ x ≠ "device" ++ id := fun e => device_key_ne_wine_key id x e.symm
    simp [Stub.PutState, hx]

theorem enrollDevice_postcondition_witness :
    stub0.GetState ("device" ++ "D1") = none ∧
    (enrollDevice stub0 ["D1", "X1", "Acme"]).1 = shim.Success none ∧
    (enrollDevice stub0 ["D1", "X1", "Acme"]).2.state
      = Function.update stub0.ledger.state ("device" ++ "D1")
          (some (jsonMarshalDevice ⟨"D1", "X1", "Acme", "enrolled"⟩)) :=
  ⟨rfl, (enrollDevice_postcondition stub0 "D1" "X1" "Acme" rfl).1,
    (enrollDevice_postcondition stub0 "D1" "X1" "Acme" rfl).2.1⟩

/-- C5: if `enrollDevice [id, m1, b1]` succeeds, a second `enrollDevice [id, m2, b2]`
on the resulting ledger fails with "Device already enrolled" and leaves that
ledger as it is; more generally `enrollDevice [id, m2, b2]` fails so, writing
nothing, whenever any value is stored at `"device" ++ id`. -/
theorem enrollDevice_idempotence_guard (stub stub2 : Stub) (id m1 b1 m2 b2 : String) :
    ((enrollDevice stub [id, m1, b1]).1 = shim.Success none →
      stub2.ledger = (enrollDevice stub [id, m1, b1]).2 →
      enrollDevice stub2 [id, m2, b2]
        = (shim.Error "Device already enrolled", (enrollDevice stub [id, m1, b1]).2)) ∧
    (∀ v, stub.GetState ("device" ++ id) = some v →
      enrollDevice stub [id, m2, b2] = (shim.Error "Device already enrolled", stub.ledger)) := by
  constructor
  · intro hok h2
    cases hg : stub.GetState ("device" ++ id) with
    | some v =>
      rw [enrollDevice_of_present stub id m1 b1 v hg] at hok
      simp [shim.Error, shim.Success] at hok
    | none =>
      have hput : stub2.GetState ("device" ++ id)
          = some (jsonMarshalDevice ⟨id, m1, b1, "enrolled"⟩) := by
        rw [Stub.GetState, h2, enrollDevice_of_absent stub id m1 b1 hg]
        simp [Stub.PutState]
      rw [enrollDevice_of_present stub2 id m2 b2 _ hput, h2]
  · intro v hv
    exact enrollDevice_of_present stub id m2 b2 v hv

theorem enrollDevice_idempotence_guard_witness :
    (enrollDevice stub0 ["D1", "X1", "Acme"]).1 = shim.Success none ∧
    enrollDevice (stub0.on afterEnrollD1 ⟨1, 0⟩) ["D1", "X2", "Other"]
      = (shim.Error "Device already enrolled", (enrollDevice stub0 ["D1", "X1", "Acme"]).2) ∧
    enrollDevice (stub0.on boundLedger ⟨1, 0⟩) ["D1", "X2", "Other"]
      = (shim.Error "Device already enrolled", boundLedger) :=
  ⟨by decide,
    (enrollDevice_idempotence_guard stub0 (stub0.on afterEnrollD1 ⟨1, 0⟩)
      "D1" "X1" "Acme" "X2" "Other").1 (by decide) rfl,
    (enrollDevice_idempotence_guard (stub0.on boundLedger ⟨1, 0⟩) stub0
      "D1" "X1" "Acme" "X2" "Other").2 _ rfl⟩

/-- C6: for a seven-element argument list headed by `id`, `enrollWine` fails
with "Device not enrolled" when nothing is stored at `"device" ++ id`, and with
"Device already used" when the device stored there has status "bind"; in both
cases the ledger after the call is the ledger before. -/
theorem enrollWine_precondition (stub : Stub) (id a1 a2 a3 a4 a5 a6 : String) :
    (stub.GetState ("device" ++ id) = none →
      enrollWine stub [id, a1, a2, a3, a4, a5, a6]
        = (shim.Error "Device not enrolled", stub.ledger)) ∧
    (DeviceHasStatus stub.ledger id "bind" →
      enrollWine stub [id, a1, a2, a3, a4, a5, a6]
        = (shim.Error "Device already used", stub.ledger)) := by
  constructor
  · intro h
    exact enrollWine_of_absent stub id a1 a2 a3 a4 a5 a6 h
  · intro hb
    obtain ⟨v, hs⟩ := state_of_DeviceHasStatus stub.ledger id _ hb
    exact enrollWine_of_present stub id a1 a2 a3 a4 a5 a6 v hs

theorem enrollWine_precondition_witness :
    stub0.GetState ("device" ++ "D2") = none ∧
    enrollWine stub0 ["D2", "alice", "M1", "2020-01-01", "PlaceA", "2020-06-01", "PlaceB"]
      = (shim.Error "Device not enrolled", stub0.ledger) ∧
    DeviceHasStatus boundLedger "D1" "bind" ∧
    enrollWine (stub0.on boundLedger ⟨3, 0⟩)
        ["D1", "carol", "M2", "2021-01-01", "PlaceC", "2021-06-01", "PlaceD"]
      = (shim.Error "Device already used", boundLedger) :=
  ⟨rfl,
    (enrollWine_precondition stub0 "D2" "alice" "M1" "2020-01-01" "PlaceA" "2020-06-01"
      "PlaceB").1 rfl,
    (by decide),
    (enrollWine_precondition (stub0.on boundLedger ⟨3, 0⟩) "D1" "carol" "M2" "2021-01-01"
      "PlaceC" "2021-06-01" "PlaceD").2 (by decide)⟩

/-- C7: for a two-element argument list `[id, newOwner]`, `transferWine` fails
with "Device not enrolled" when nothing is stored at `"device" ++ id`, and with
"Wine not enrolled" when the device stored there has a status other than
"bind"; in both cases the ledger after the call is the ledger before. -/
theorem transferWine_precondition (stub : Stub) (id newOwner : String) :
    (stub.GetState ("device" ++ id) = none →
      transferWine stub [id, newOwner] = (shim.Error "Device not enrolled", stub.ledger)) ∧
    (∀ s, s ≠ "bind" → DeviceHasStatus stub.ledger id s →
      transferWine stub [id, newOwner] = (shim.Error "Wine not enrolled", stub.ledger)) := by
  constructor
  · intro h
    exact transferWine_of_absent stub id newOwner h
  · intro s _ hb
    obtain ⟨v, hs⟩ := state_of_DeviceHasStatus stub.ledger id _ hb
    exact transferWine_of_present stub id newOwner v hs

theorem transferWine_precondition_witness :
    stub0.GetState ("device" ++ "D2") = none ∧
    transferWine stub0 ["D2", "bob"] = (shim.Error "Device not enrolled", stub0.ledger) ∧
    DeviceHasStatus afterEnrollD1 "D1" "enrolled" ∧
    transferWine (stub0.on afterEnrollD1 ⟨1, 0⟩) ["D1", "bob"]
      = (shim.Error "Wine not enrolled", afterEnrollD1) :=
  ⟨rfl,
    (transferWine_precondition stub0 "D2" "bob").1 rfl,
    (by decide),
    (transferWine_precondition (stub0.on afterEnrollD1 ⟨1, 0⟩) "D1" "bob").2 "enrolled"
      (by decide) (by decide)⟩

/-- C8: the pairing of bound devices and wines is an invariant of the contract.
A ledger is paired when, for every `id`, the device at `"device" ++ id` has
status "bind" exactly when a value is stored at `"wine" ++ id`, and every value
stored at `"wine" ++ id` is the encoding of a wine whose `DeviceUid` is `id`.
The empty ledger is paired; one `Invoke` call, with any function name,
arguments and stub, takes a paired ledger (one that holds bound devices and
their wines included) to a paired ledger; hence every ledger reachable from the
empty one is paired. -/
theorem bound_wine_pairing :
    Paired Ledger.empty ∧
    (∀ (stub : Stub) (function : String) (args : List String),
      Paired stub.ledger → Paired (Invoke stub function args).2) ∧
    (∀ l : Ledger, Reachable l → Paired l) := by
  refine ⟨empty_paired, Invoke_preserves_paired, ?_⟩
  intro l h
  induction h with
  | empty => exact empty_paired
  | step stub function args _ ih => exact Invoke_preserves_paired stub function args ih

theorem bound_wine_pairing_witness :
    DeviceHasStatus boundLedger "D1" "bind" ∧
    boundLedger.state ("wine" ++ "D1") = some (jsonMarshalWine wineD1) ∧
    wineD1.DeviceUid = "D1" ∧
    Paired boundLedger ∧
    Paired (Invoke (stub0.on boundLedger ⟨3, 0⟩) "enrollDevice" ["D2", "X2", "Acme"]).2 ∧
    DeviceHasStatus (Invoke (stub0.on boundLedger ⟨3, 0⟩) "enrollDevice" ["D2", "X2", "Acme"]).2
      "D2" "enrolled" ∧
    Reachable afterEnrollD1 ∧ Paired afterEnrollD1 :=
  ⟨by decide, by decide, rfl, boundLedger_paired,
    bound_wine_pairing.2.1 (stub0.on boundLedger ⟨3, 0⟩) "enrollDevice" ["D2", "X2", "Acme"]
      boundLedger_paired,
    by decide,
    Reachable.step stub0 "enrollDevice" ["D1", "X1", "Acme"] Reachable.empty,
    bound_wine_pairing.2.2 afterEnrollD1
      (Reachable.step stub0 "enrollDevice" ["D1", "X1", "Acme"] Reachable.empty)⟩

/-- C9: one `Invoke` step, with any function name and arguments, never deletes
a device record (a value stored at `"device" ++ id` before is still stored
after), and never moves a device out of "bind": if the device stored at
`"device" ++ id` has status "bind" before, the value at that key is the same
after. -/
theorem device_lifecycle_monotone (stub : Stub) (function : String) (args : List String)
    (id : String) :
    ((stub.ledger.state ("device" ++ id)).isSome = true →
      ((Invoke stub function args).2.state ("device" ++ id)).isSome = true) ∧
    (DeviceHasStatus stub.ledger id "bind" →
      (Invoke stub function args).2.state ("device" ++ id)
        = stub.ledger.state ("device" ++ id)) := by
  constructor
  · intro hs
    obtain ⟨v, hv⟩ := Option.isSome_iff_exists.mp hs
    rw [Invoke_state_of_present stub function args _ v hv]
    rfl
  · intro hb
    obtain ⟨v, hs⟩ := state_of_DeviceHasStatus stub.ledger id _ hb
    rw [Invoke_state_of_present stub function args _ v hs, hs]

theorem device_lifecycle_monotone_witness :
    (boundLedger.state ("device" ++ "D1")).isSome = true ∧
    ((Invoke (stub0.on boundLedger ⟨3, 0⟩) "enrollDevice" ["D1", "X2", "Other"]).2.state
      ("device" ++ "D1")).isSome = true ∧
    DeviceHasStatus boundLedger "D1" "bind" ∧
    (Invoke (stub0.on boundLedger ⟨3, 0⟩) "enrollDevice" ["D1", "X2", "Other"]).2.state
        ("device" ++ "D1")
      = boundLedger.state ("device" ++ "D1") :=
  ⟨rfl,
    (device_lifecycle_monotone (stub0.on boundLedger ⟨3, 0⟩) "enrollDevice"
      ["D1", "X2", "Other"] "D1").1 rfl,
    (by decide),
    (device_lifecycle_monotone (stub0.on boundLedger ⟨3, 0⟩) "enrollDevice"
      ["D1", "X2", "Other"] "D1").2 (by decide)⟩

/-- C10, which fails on the code: the wine codec does not round-trip. The decode
step of the handlers passes the wine by value, so decoding the encoding of
alice's wine yields the zero wine; and the encoding itself omits `ProduceDate`
and `ProducePlace`, which share the tag `produce_date`, so two wines that
differ in these fields have the same bytes. -/
theorem wine_codec_not_round_trip :
    jsonUnmarshalByValue (jsonMarshalWine wineD1) Wine.zero = Wine.zero ∧
    Wine.zero ≠ wineD1 ∧
    jsonMarshalWine wineD1
      = jsonMarshalWine { wineD1 with ProduceDate := "1999-12-31", ProducePlace := "Elsewhere" } ∧
    wineD1 ≠ { wineD1 with ProduceDate := "1999-12-31", ProducePlace := "Elsewhere" } := by
  decide

/-! ## Lemmas on arity, responses and keys -/

theorem queryWine_of_present (stub : Stub) (a0 : String) (v : Bytes)
    (h : stub.GetState ("device" ++ a0) = some v) :
    queryWine stub [a0] = (shim.Error "Wine not enrolled", stub.ledger) := by
  simp [queryWine, h, zero_status_ne_bind]

theorem queryWine_of_absent (stub : Stub) (a0 : String)
    (h : stub.GetState ("device" ++ a0) = none) :
    queryWine stub [a0] = (shim.Error "Device not enrolled", stub.ledger) := by
  simp [queryWine, h]

theorem enrollDevice_arity (stub : Stub) (args : List String) (h : args.length ≠ 3) :
    enrollDevice stub args
      = (shim.Error "Incorrect number of arguments. Expecting 3", stub.ledger) := by
  unfold enrollDevice
  split
  · simp at h
  · rfl

theorem enrollWine_arity (stub : Stub) (args : List String) (h : args.length ≠ 7) :
    enrollWine stub args
      = (shim.Error "Incorrect number of arguments. Expecting 7", stub.ledger) := by
  unfold enrollWine
  split
  · simp at h
  · rfl

theorem transferWine_arity (stub : Stub) (args : List String) (h : args.length ≠ 2) :
    transferWine stub args
      = (shim.Error "Incorrect number of arguments. Expecting 2", stub.ledger) := by
  unfold transferWine
  split
  · simp at h
  · rfl

theorem queryWine_arity (stub : Stub) (args : List String) (h : args.length ≠ 1) :
    queryWine stub args
      = (shim.Error "Incorrect number of arguments. Expecting 1", stub.ledger) := by
  unfold queryWine
  split
  · simp at h
  · rfl

theorem enrollWine_response_cases (stub : Stub) (args : List String) :
    (enrollWine stub args).1 = shim.Error "Incorrect number of arguments. Expecting 7" ∨
    (enrollWine stub args).1 = shim.Error "Device not enrolled" ∨
    (enrollWine stub args).1 = shim.Error "Device already used" := by
  unfold enrollWine
  split
  · split
    · exact Or.inr (Or.inl rfl)
    · simp [zero_status_ne_enrolled]
  · exact Or.inl rfl

theorem transferWine_response_cases (stub : Stub) (args : List String) :
    (transferWine stub args).1 = shim.Error "Incorrect number of arguments. Expecting 2" ∨
    (transferWine stub args).1 = shim.Error "Device not enrolled" ∨
    (transferWine stub args).1 = shim.Error "Wine not enrolled" := by
  unfold transferWine
  split
  · split
    · exact Or.inr (Or.inl rfl)
    · simp [zero_status_ne_bind]
  · exact Or.inl rfl

theorem queryWine_response_cases (stub : Stub) (args : List String) :
    (queryWine stub args).1 = shim.Error "Incorrect number of arguments. Expecting 1" ∨
    (queryWine stub args).1 = shim.Error "Device not enrolled" ∨
    (queryWine stub args).1 = shim.Error "Wine not enrolled" := by
  unfold queryWine
  split
  · split
    · exact Or.inr (Or.inl rfl)
    · simp [zero_status_ne_bind]
  · exact Or.inl rfl

theorem not_json_ne_jsonMarshalWine (w : Wine) : "not json".data ≠ jsonMarshalWine w := by
  intro h
  have hh := congrArg List.head? h
  simp [jsonMarshalWine] at hh

/-! ## Claims, continued -/

/-- C11, as stated, fails on the code: a Go string is any sequence of bytes, and
the device whose `Uid` is the three bytes `x`, `0xFF`, `y` does not survive the
round trip. `json.Marshal` writes the escape of U+FFFD for the byte `0xFF`, and
decoding the result through a pointer yields a device whose `Uid` is
`x`, `0xEF 0xBF 0xBD`, `y`. -/
theorem device_codec_invalid_utf8_not_round_trip :
    validUTF8 rawDeviceInvalid.Uid = false ∧
    jsonMarshalRawDevice rawDeviceInvalid
      = ("\x7b\"uid\":\"x\\ufffdy\",\"model\":\"X1\",\"brand\":\"Acme\"," ++
          "\"status\":\"enrolled\"\x7d").data ∧
    jsonUnmarshalRawDevice (jsonMarshalRawDevice rawDeviceInvalid) RawDevice.zero
      = { rawDeviceInvalid with
          Uid := [byte 0x78, byte 0xEF, byte 0xBF, byte 0xBD, byte 0x79] } ∧
    jsonUnmarshalRawDevice (jsonMarshalRawDevice rawDeviceInvalid) RawDevice.zero
      ≠ rawDeviceInvalid := by
  decide

/-- C11, amended: for every device whose four strings are valid UTF-8, decoding
the bytes of `json.Marshal(d)` into a `Device` through a pointer, as
`enrollWine` does when it binds, reproduces `d` exactly, whatever the target
held before (in the source, the zero device). -/
theorem device_codec_round_trip_valid_utf8 (d target : RawDevice)
    (hu : validUTF8 d.Uid = true) (hm : validUTF8 d.Model = true)
    (hb : validUTF8 d.Brand = true) (hs : validUTF8 d.Status = true) :
    jsonUnmarshalRawDevice (jsonMarshalRawDevice d) target = d := by
  rw [jsonMarshalRawDevice_of_valid d hu hm hb hs, jsonUnmarshalRawDevice_jsonMarshalDevice]
  simp only [RawDevice.text]
  rw [(valid_round_trip _ hu).2, (valid_round_trip _ hm).2, (valid_round_trip _ hb).2,
    (valid_round_trip _ hs).2]

theorem device_codec_round_trip_valid_utf8_witness :
    validUTF8 rawDeviceValid.Uid = true ∧ validUTF8 rawDeviceValid.Model = true ∧
    validUTF8 rawDeviceValid.Brand = true ∧ validUTF8 rawDeviceValid.Status = true ∧
    jsonUnmarshalRawDevice (jsonMarshalRawDevice rawDeviceValid) RawDevice.zero
      = rawDeviceValid :=
  ⟨by decide, by decide, by decide, by decide,
    device_codec_round_trip_valid_utf8 rawDeviceValid RawDevice.zero
      (by decide) (by decide) (by decide) (by decide)⟩

/-- C12, which fails on the code: on a ledger where device D1 is bound and the
history of its wine key holds one version, `queryWine ["D1"]` does not succeed
with an audit record of one entry; it answers "Wine not enrolled" and carries
no payload. -/
theorem queryWine_rejects_bound_device :
    DeviceHasStatus boundLedger "D1" "bind" ∧
    ((stub0.on boundLedger ⟨3, 0⟩).GetHistoryForKey ("wine" ++ "D1")).length = 1 ∧
    (queryWine (stub0.on boundLedger ⟨3, 0⟩) ["D1"]).1 = shim.Error "Wine not enrolled" ∧
    (queryWine (stub0.on boundLedger ⟨3, 0⟩) ["D1"]).1.Payload = none ∧
    (Invoke (stub0.on boundLedger ⟨3, 0⟩) "queryAllCars" ["D1"]).1
      = shim.Error "Wine not enrolled" := by
  decide

/-- C14: each handler checks the number of arguments before it touches the
ledger. For an argument list whose length is not the arity (3 for
`enrollDevice`, 7 for `enrollWine`, 2 for `transferWine`, 1 for `queryWine`) the
response is "Incorrect number of arguments. Expecting N", the same on every
ledger, and the ledger is returned unchanged. -/
theorem arity_checked_first (stub : Stub) (args : List String) :
    (args.length ≠ 3 → enrollDevice stub args
      = (shim.Error "Incorrect number of arguments. Expecting 3", stub.ledger)) ∧
    (args.length ≠ 7 → enrollWine stub args
      = (shim.Error "Incorrect number of arguments. Expecting 7", stub.ledger)) ∧
    (args.length ≠ 2 → transferWine stub args
      = (shim.Error "Incorrect number of arguments. Expecting 2", stub.ledger)) ∧
    (args.length ≠ 1 → queryWine stub args
      = (shim.Error "Incorrect number of arguments. Expecting 1", stub.ledger)) :=
  ⟨enrollDevice_arity stub args, enrollWine_arity stub args,
    transferWine_arity stub args, queryWine_arity stub args⟩

theorem arity_checked_first_witness :
    enrollDevice (stub0.on boundLedger ⟨3, 0⟩) ["D1", "X1"]
      = (shim.Error "Incorrect number of arguments. Expecting 3", boundLedger) ∧
    enrollWine (stub0.on boundLedger ⟨3, 0⟩) ["D1", "X1"]
      = (shim.Error "Incorrect number of arguments. Expecting 7", boundLedger) ∧
    transferWine (stub0.on boundLedger ⟨3, 0⟩) ["D1"]
      = (shim.Error "Incorrect number of arguments. Expecting 2", boundLedger) ∧
    queryWine (stub0.on boundLedger ⟨3, 0⟩) ["D1", "X1"]
      = (shim.Error "Incorrect number of arguments. Expecting 1", boundLedger) :=
  ⟨(arity_checked_first (stub0.on boundLedger ⟨3, 0⟩) ["D1", "X1"]).1 (by decide),
    (arity_checked_first (stub0.on boundLedger ⟨3, 0⟩) ["D1", "X1"]).2.1 (by decide),
    (arity_checked_first (stub0.on boundLedger ⟨3, 0⟩) ["D1"]).2.2.1 (by decide),
    (arity_checked_first (stub0.on boundLedger ⟨3, 0⟩) ["D1", "X1"]).2.2.2 (by decide)⟩

/-- C15: for every function name other than "enrollDevice", "enrollWine",
"transferWine" and "queryAllCars", `Invoke` answers "Invalid Smart Contract
function name." and returns the ledger unchanged; and each of the four names
is routed to its one handler. -/
theorem Invoke_dispatch (stub : Stub) (function : String) (args : List String) :
    (function ≠ "enrollDevice" → function ≠ "enrollWine" → function ≠ "transferWine" →
      function ≠ "queryAllCars" →
      Invoke stub function args
        = (shim.Error "Invalid Smart Contract function name.", stub.ledger)) ∧
    Invoke stub "enrollDevice" args = enrollDevice stub args ∧
    Invoke stub "enrollWine" args = enrollWine stub args ∧
    Invoke stub "transferWine" args = transferWine stub args ∧
    Invoke stub "queryAllCars" args = queryWine stub args := by
  refine ⟨?_, ?_, ?_, ?_, ?_⟩
  · intro h1 h2 h3 h4
    simp [Invoke, h1, h2, h3, h4]
  · simp [Invoke]
  · simp [Invoke]
  · simp [Invoke]
  · simp [Invoke]

theorem Invoke_dispatch_witness :
    Invoke (stub0.on boundLedger ⟨3, 0⟩) "queryWine" ["D1"]
      = (shim.Error "Invalid Smart Contract function name.", boundLedger) :=
  (Invoke_dispatch (stub0.on boundLedger ⟨3, 0⟩) "queryWine" ["D1"]).1
    (by decide) (by decide) (by decide) (by decide)

/-- C16: the key namespace has no collision. A device key is never a wine key,
and `deviceKey` and `wineKey` are injective. -/
theorem key_namespace_collision_free (a b : String) :
    deviceKey a ≠ wineKey b ∧
    (deviceKey a = deviceKey b → a = b) ∧
    (wineKey a = wineKey b → a = b) :=
  ⟨device_key_ne_wine_key a b, string_append_left_cancel "device" a b,
    string_append_left_cancel "wine" a b⟩

theorem key_namespace_collision_free_witness :
    deviceKey "D1" ≠ wineKey "D1" ∧ deviceKey "D1" = deviceKey "D1" ∧ "D1" = "D1" ∧
    wineKey "D1" = wineKey "D1" ∧ "D1" = "D1" :=
  ⟨(key_namespace_collision_free "D1" "D1").1,
    rfl, (key_namespace_collision_free "D1" "D1").2.1 rfl,
    rfl, (key_namespace_collision_free "D1" "D1").2.2 rfl⟩

/-- C13, as stated, fails on the code: on a ledger where device D1 is bound and
the history of its wine key holds a version that is not JSON, `queryWine ["D1"]`
does not report a malformed record. Its response is the "Wine not enrolled"
answer of an unbound device, the very response it gives on the ledger whose
history holds only a well-formed version. -/
theorem queryWine_malformed_not_reported :
    DeviceHasStatus malformedLedger "D1" "bind" ∧
    ((malformedLedger.history ("wine" ++ "D1")).any
      fun version => (parseJSON version.Value).isNone) = true ∧
    (queryWine (stub0.on malformedLedger ⟨4, 0⟩) ["D1"]).1 = shim.Error "Wine not enrolled" ∧
    (queryWine (stub0.on malformedLedger ⟨4, 0⟩) ["D1"]).1
      = (queryWine (stub0.on boundLedger ⟨4, 0⟩) ["D1"]).1 := by
  decide

/-- C13, amended: on a ledger where device `id` is bound and the history of
`"wine" ++ id` holds a version that is not the encoding of a wine,
`queryWine [id]` returns a failure and no success payload: the response is the
error "Wine not enrolled" (status 500), which is the encoding of no audit
record, so no entry was skipped and none replaced by a zero wine. The ledger
is returned as it was, the malformed version included. Only the label differs
from the claim: the failure is not reported as a malformed record. -/
theorem queryWine_malformed_history_fails (stub : Stub) (id : String)
    (hb : DeviceHasStatus stub.ledger id "bind")
    (hbad : ∃ version ∈ stub.GetHistoryForKey ("wine" ++ id),
      ∀ w : Wine, version.Value ≠ jsonMarshalWine w) :
    (queryWine stub [id]).1 = shim.Error "Wine not enrolled" ∧
    (queryWine stub [id]).1.Status = 500 ∧
    (queryWine stub [id]).1.Payload = none ∧
    (∀ h : WholeHistory,
      (queryWine stub [id]).1 ≠ shim.Success (some (jsonMarshalWholeHistory h))) ∧
    (queryWine stub [id]).2 = stub.ledger ∧
    ∃ version ∈ (queryWine stub [id]).2.history ("wine" ++ id),
      ∀ w : Wine, version.Value ≠ jsonMarshalWine w := by
  obtain ⟨v, hs⟩ := state_of_DeviceHasStatus stub.ledger id _ hb
  rw [queryWine_of_present stub id v hs]
  refine ⟨rfl, rfl, rfl, fun h => ?_, rfl, hbad⟩
  simp [shim.Error, shim.Success]

theorem queryWine_malformed_history_fails_witness :
    DeviceHasStatus malformedLedger "D1" "bind" ∧
    (∃ version ∈ (stub0.on malformedLedger ⟨4, 0⟩).GetHistoryForKey ("wine" ++ "D1"),
      ∀ w : Wine, version.Value ≠ jsonMarshalWine w) ∧
    (queryWine (stub0.on malformedLedger ⟨4, 0⟩) ["D1"]).1 = shim.Error "Wine not enrolled" ∧
    (queryWine (stub0.on malformedLedger ⟨4, 0⟩) ["D1"]).1.Status = 500 ∧
    (queryWine (stub0.on malformedLedger ⟨4, 0⟩) ["D1"]).1.Payload = none ∧
    (∀ h : WholeHistory, (queryWine (stub0.on malformedLedger ⟨4, 0⟩) ["D1"]).1
      ≠ shim.Success (some (jsonMarshalWholeHistory h))) ∧
    (queryWine (stub0.on malformedLedger ⟨4, 0⟩) ["D1"]).2
      = (stub0.on malformedLedger ⟨4, 0⟩).ledger ∧
    ∃ version ∈ (queryWine (stub0.on malformedLedger ⟨4, 0⟩) ["D1"]).2.history ("wine" ++ "D1"),
      ∀ w : Wine, version.Value ≠ jsonMarshalWine w :=
  ⟨by decide,
    ⟨⟨"not json".data, ⟨3, 0⟩⟩, by decide, not_json_ne_jsonMarshalWine⟩,
    queryWine_malformed_history_fails (stub0.on malformedLedger ⟨4, 0⟩) "D1" (by decide)
      ⟨⟨"not json".data, ⟨3, 0⟩⟩, by decide, not_json_ne_jsonMarshalWine⟩⟩

/-- C17, as stated, fails on the code: on a ledger where device D1 is bound and
nothing is stored at its wine key, `transferWine ["D1", "bob"]` does not report
a missing wine record. Its response is the "Wine not enrolled" answer of an
unbound device, the very response it gives on the ledger that does hold the
wine. -/
theorem transferWine_missing_wine_not_reported :
    DeviceHasStatus boundNoWineLedger "D1" "bind" ∧
    boundNoWineLedger.state ("wine" ++ "D1") = none ∧
    (transferWine (stub0.on boundNoWineLedger ⟨3, 0⟩) ["D1", "bob"]).1
      = shim.Error "Wine not enrolled" ∧
    (transferWine (stub0.on boundNoWineLedger ⟨3, 0⟩) ["D1", "bob"]).1
      = (transferWine (stub0.on boundLedger ⟨3, 0⟩) ["D1", "bob"]).1 := by
  decide

/-- C17, amended: on a ledger where device `id` is bound and nothing is stored
at `"wine" ++ id`, `transferWine [id, newOwner]` fails and writes nothing: the
response is the error "Wine not enrolled" (status 500), the ledger is returned
as it was, and `"wine" ++ id` still holds nothing, so no wine record with only
the owner set is created. Only the label differs from the claim: the failure
is not reported as a missing wine record. -/
theorem transferWine_missing_wine_fails (stub : Stub) (id newOwner : String)
    (hb : DeviceHasStatus stub.ledger id "bind")
    (hw : stub.GetState ("wine" ++ id) = none) :
    (transferWine stub [id, newOwner]).1 = shim.Error "Wine not enrolled" ∧
    (transferWine stub [id, newOwner]).1.Status = 500 ∧
    (transferWine stub [id, newOwner]).2 = stub.ledger ∧
    (transferWine stub [id, newOwner]).2.state ("wine" ++ id) = none := by
  obtain ⟨d, hs⟩ := state_of_DeviceHasStatus stub.ledger id _ hb
  rw [transferWine_of_present stub id newOwner d hs]
  exact ⟨rfl, rfl, rfl, hw⟩

theorem transferWine_missing_wine_fails_witness :
    DeviceHasStatus boundNoWineLedger "D1" "bind" ∧
    (stub0.on boundNoWineLedger ⟨3, 0⟩).GetState ("wine" ++ "D1") = none ∧
    (transferWine (stub0.on boundNoWineLedger ⟨3, 0⟩) ["D1", "bob"]).1
      = shim.Error "Wine not enrolled" ∧
    (transferWine (stub0.on boundNoWineLedger ⟨3, 0⟩) ["D1", "bob"]).1.Status = 500 ∧
    (transferWine (stub0.on boundNoWineLedger ⟨3, 0⟩) ["D1", "bob"]).2
      = (stub0.on boundNoWineLedger ⟨3, 0⟩).ledger ∧
    (transferWine (stub0.on boundNoWineLedger ⟨3, 0⟩) ["D1", "bob"]).2.state ("wine" ++ "D1")
      = none :=
  ⟨by decide, rfl,
    transferWine_missing_wine_fails (stub0.on boundNoWineLedger ⟨3, 0⟩) "D1" "bob"
      (by decide) rfl⟩

/-- C18: for every ledger and every argument list, the world state after
`transferWine` agrees with the one before on every key other than
`"wine" ++ args[0]`; in particular every value under a device key is the same,
whether the call succeeds or fails. -/
theorem transferWine_frame (stub : Stub) (args : List String) :
    (∀ k, (∀ a0, args.head? = some a0 → k ≠ "wine" ++ a0) →
      (transferWine stub args).2.state k = stub.ledger.state k) ∧
    (∀ x, (transferWine stub args).2.state ("device" ++ x) = stub.ledger.state ("device" ++ x)) := by
  rw [transferWine_ledger]
  exact ⟨fun _ _ => rfl, fun _ => rfl⟩

theorem transferWine_frame_witness :
    (∀ a0, ["D1", "bob"].head? = some a0 → "deviceD1" ≠ "wine" ++ a0) ∧
    (transferWine (stub0.on boundLedger ⟨3, 0⟩) ["D1", "bob"]).2.state "deviceD1"
      = (stub0.on boundLedger ⟨3, 0⟩).ledger.state "deviceD1" :=
  ⟨fun a0 _ => device_key_ne_wine_key "D1" a0,
    (transferWine_frame (stub0.on boundLedger ⟨3, 0⟩) ["D1", "bob"]).1 "deviceD1"
      (fun a0 _ => device_key_ne_wine_key "D1" a0)⟩

/-- C19: the status read is always empty. A device decoded by value keeps its
zero value, so for every ledger and every argument list `enrollWine`,
`transferWine` and `queryWine` each answer with one of their error responses
(status 500, never success) and return the ledger unchanged. -/
theorem status_read_always_empty (stub : Stub) (args : List String) (data : Bytes) :
    (jsonUnmarshalByValue data Device.zero).Status = "" ∧
    (((enrollWine stub args).1 = shim.Error "Incorrect number of arguments. Expecting 7" ∨
      (enrollWine stub args).1 = shim.Error "Device not enrolled" ∨
      (enrollWine stub args).1 = shim.Error "Device already used") ∧
      (enrollWine stub args).1.Status = 500 ∧ (enrollWine stub args).2 = stub.ledger) ∧
    (((transferWine stub args).1 = shim.Error "Incorrect number of arguments. Expecting 2" ∨
      (transferWine stub args).1 = shim.Error "Device not enrolled" ∨
      (transferWine stub args).1 = shim.Error "Wine not enrolled") ∧
      (transferWine stub args).1.Status = 500 ∧ (transferWine stub args).2 = stub.ledger) ∧
    (((queryWine stub args).1 = shim.Error "Incorrect number of arguments. Expecting 1" ∨
      (queryWine stub args).1 = shim.Error "Device not enrolled" ∨
      (queryWine stub args).1 = shim.Error "Wine not enrolled") ∧
      (queryWine stub args).1.Status = 500 ∧ (queryWine stub args).2 = stub.ledger) := by
  have statusOf : ∀ (r : Response) (a b c : String),
      (r = shim.Error a ∨ r = shim.Error b ∨ r = shim.Error c) → r.Status = 500 := by
    intro r a b c h
    rcases h with h | h | h <;> rw [h] <;> rfl
  refine ⟨rfl, ⟨enrollWine_response_cases stub args, ?_, enrollWine_ledger stub args⟩,
    ⟨transferWine_response_cases stub args, ?_, transferWine_ledger stub args⟩,
    ⟨queryWine_response_cases stub args, ?_, queryWine_ledger stub args⟩⟩
  · exact statusOf _ _ _ _ (enrollWine_response_cases stub args)
  · exact statusOf _ _ _ _ (transferWine_response_cases stub args)
  · exact statusOf _ _ _ _ (queryWine_response_cases stub args)

/-- C20: in every ledger reachable from the empty one by `Invoke` calls, every
key that holds a value has the form `"device" ++ id` and holds the encoding of
a device with `Uid = id` and status "enrolled"; no wine key holds a value and
no device has status "bind". -/
theorem reachable_only_enrolled_devices (l : Ledger) (h : Reachable l) :
    (∀ k v, l.state k = some v →
      ∃ id m b, k = "device" ++ id ∧ v = jsonMarshalDevice ⟨id, m, b, "enrolled"⟩) ∧
    (∀ id, l.state ("wine" ++ id) = none) ∧
    (∀ id, ¬ DeviceHasStatus l id "bind") :=
  ⟨reachable_only_enrolled l h, reachable_no_wine l h, reachable_no_bind l h⟩

theorem reachable_only_enrolled_devices_witness :
    Reachable afterEnrollD1 ∧
    (∀ k v, afterEnrollD1.state k = some v →
      ∃ id m b, k = "device" ++ id ∧ v = jsonMarshalDevice ⟨id, m, b, "enrolled"⟩) ∧
    (∀ id, afterEnrollD1.state ("wine" ++ id) = none) ∧
    (∀ id, ¬ DeviceHasStatus afterEnrollD1 id "bind") :=
  ⟨Reachable.step stub0 "enrollDevice" ["D1", "X1", "Acme"] Reachable.empty,
    reachable_only_enrolled_devices afterEnrollD1
      (Reachable.step stub0 "enrollDevice" ["D1", "X1", "Acme"] Reachable.empty)⟩

end Chain
